import Mathlib

/-!
Shallow embedding of the concurrent hash containers of this repository
(src/omp_hash_map.h and src/omp_hash_set.h), specialised to the
single-threaded (sequential) semantics of each public operation: the
segment-lock machinery only serialises handlers, so one call executing
alone runs the loop bodies exactly once and in index order.

Modelling conventions:
- `size_t` is modelled by `Nat`.  No arithmetic in the modelled paths can
  overflow 64 bits for inputs below `2 ^ 64` (the planner's largest
  product is `817504253 * 2147483647 < 2 ^ 61`), so no explicit `% 2 ^ 64`
  is needed; theorems about the planners carry an `m < 2 ^ 64` bound to
  stay within the `size_t` domain.
- `throw std::invalid_argument` in the capacity planners is modelled by
  `Option`: `none` is the thrown exception, `some c` a normal return.
- A bucket chain (`std::unique_ptr<hash_node>` list) is a `List` of
  nodes; the map variant's node carries `(key, value)`, the set
  variant's node carries just the key.  A handler receives the slot it
  is applied to as the sublist starting at that slot (the node it holds
  together with everything reachable through `next`), exactly the data a
  `std::unique_ptr<hash_node>&` gives access to, and returns the new
  content of the slot together with the updated `n_keys`.
- `max_load_factor` is modelled at its default value `1.0` (set only by
  the constructor in the modelled scenarios).  With that value the
  `double` comparison `n_keys >= n_buckets * max_load_factor` is exact
  and equals `n_buckets ≤ n_keys`, and `n_keys / max_load_factor`
  equals `n_keys`.
-/

set_option maxRecDepth 8000
set_option linter.unusedSectionVars false

section ChainEngine

variable {α K : Type} [DecidableEq K]

/-- Shared shape of `hash_node_apply_recursive` (keyed form) from
omp_hash_map.h and omp_hash_set.h: walk the chain to the first node whose
key equals `key` (or to the trailing empty slot) and let `node_handler`
rewrite that slot; `keyOf` projects the key out of a node ( `Prod.fst`
for the map's `(key, value)` nodes, `id` for the set's key-only nodes),
and the atomically updated `n_keys` counter is threaded through. -/
def hash_node_apply_recursive (keyOf : α → K) (key : K)
    (node_handler : List α → Nat → List α × Nat) :
    List α → Nat → List α × Nat
  | [], n_keys => node_handler [] n_keys
  | node :: rest, n_keys =>
    if keyOf node = key then node_handler (node :: rest) n_keys
    else
      let r := hash_node_apply_recursive keyOf key node_handler rest n_keys
      (node :: r.1, r.2)

/-- The slot that `hash_node_apply_recursive` hands to the handler: the
sublist starting at the first node with the given key, or `[]` when the
chain has no such node. -/
def find_slot (keyOf : α → K) (key : K) : List α → List α
  | [] => []
  | node :: rest => if keyOf node = key then node :: rest else find_slot keyOf key rest

/-- The part of the chain strictly before the slot found by `find_slot`;
it is left untouched by the keyed `hash_node_apply_recursive`. -/
def before_slot (keyOf : α → K) (key : K) : List α → List α
  | [] => []
  | node :: rest => if keyOf node = key then [] else node :: before_slot keyOf key rest

end ChainEngine

namespace omp_hash_map

/-- The 29-entry prime table of `omp_hash_map::get_n_rehashing_buckets`. -/
def PRIME_NUMBERS : List Nat :=
  [5, 11, 23, 47, 97, 199, 409, 823,
   1741, 3469, 6949, 14033, 28411, 57557, 116731, 236897,
   480881, 976369, 1982627, 4026031, 8175383, 16601593, 33712729, 68460391,
   139022417, 282312799, 573292817, 1164186217, 2147483647]

def N_PRIME_NUMBERS : Nat := PRIME_NUMBERS.length

def LAST_PRIME_NUMBER : Nat := 2147483647

end omp_hash_map

/-- The binary-search loop shared by both planners: narrow `[left, right]`
to the first index whose table entry is `≥ r`.  The loop of the source
terminates because the interval shrinks; here the interval width also
bounds the iteration count, so running it with `fuel = primes.length`
iterations reproduces the loop exactly. -/
def lower_bound (primes : List Nat) (r : Nat) : Nat → Nat → Nat → Nat
  | 0, left, _ => left
  | fuel + 1, left, right =>
    if left < right then
      let mid := (left + right) / 2
      if primes.getD mid 0 < r then lower_bound primes r fuel (mid + 1) right
      else lower_bound primes r fuel left mid
    else left

namespace omp_hash_map

/-- `omp_hash_map::get_n_rehashing_buckets`: one optional multiplication
by 817504253, then the first table prime at least as large as the
remaining factor; `none` models `throw std::invalid_argument`. -/
def get_n_rehashing_buckets (n_buckets_in : Nat) : Option Nat :=
  let p :=
    if LAST_PRIME_NUMBER < n_buckets_in then (n_buckets_in / 817504253, 817504253)
    else (n_buckets_in, 1)
  if LAST_PRIME_NUMBER < p.1 then none
  else
    let left := lower_bound PRIME_NUMBERS p.1 N_PRIME_NUMBERS 0 (N_PRIME_NUMBERS - 1)
    some (p.2 * PRIME_NUMBERS.getD left 0)

def N_INITIAL_BUCKETS : Nat := 5

/-- The observable state of an `omp_hash_map<K, V>`: the scalar counters
and the bucket array of chains (locks carry no sequential state). -/
structure State (K V : Type) where
  n_keys : Nat
  n_buckets : Nat
  buckets : List (List (K × V))
deriving DecidableEq

variable {K V : Type} [DecidableEq K] [Inhabited V] (hash : K → Nat)

/-- The constructor `omp_hash_map()`. -/
def construct : State K V :=
  { n_keys := 0, n_buckets := N_INITIAL_BUCKETS,
    buckets := List.replicate N_INITIAL_BUCKETS [] }

/-- The bucket index computed by the point-access engine. -/
def bucket_id (s : State K V) (key : K) : Nat := hash key % s.n_buckets

/-- `omp_hash_map::hash_node_apply` (keyed form), sequential semantics:
the snapshot/retry loop runs once, locates the bucket of `key` and runs
the handler on the located slot. -/
def hash_node_apply (s : State K V) (key : K)
    (node_handler : List (K × V) → Nat → List (K × V) × Nat) : State K V :=
  let b := bucket_id hash s key
  let r := hash_node_apply_recursive Prod.fst key node_handler (s.buckets.getD b []) s.n_keys
  { s with buckets := s.buckets.set b r.1, n_keys := r.2 }

/-- The rehashing node handler of `omp_hash_map::rehash`: the located
slot in the new array receives the moved node, whose `next` is reset. -/
def rehash_insert_node (n_rehashing_buckets : Nat)
    (rehashing_buckets : List (List (K × V))) (node : K × V) : List (List (K × V)) :=
  let b := hash node.1 % n_rehashing_buckets
  let r := hash_node_apply_recursive Prod.fst node.1 (fun _ n => ([node], n))
    (rehashing_buckets.getD b []) 0
  rehashing_buckets.set b r.1

/-- The post-order walk `hash_node_apply_recursive(buckets[i], node_handler)`
performed by `omp_hash_map::rehash` over one old chain: the tail of the
chain is rehomed before the node owning it. -/
def rehash_chain (n_rehashing_buckets : Nat)
    (rehashing_buckets : List (List (K × V))) : List (K × V) → List (List (K × V))
  | [] => rehashing_buckets
  | node :: rest =>
    rehash_insert_node hash n_rehashing_buckets
      (rehash_chain n_rehashing_buckets rehashing_buckets rest) node

/-- `omp_hash_map::rehash(n_rehashing_buckets)`: never shrink; otherwise
rehome every node into a fresh array of the requested length. -/
def rehash (s : State K V) (n_rehashing_buckets : Nat) : State K V :=
  if n_rehashing_buckets ≤ s.n_buckets then s
  else
    { s with
      buckets := s.buckets.foldl (rehash_chain hash n_rehashing_buckets)
        (List.replicate n_rehashing_buckets []),
      n_buckets := n_rehashing_buckets }

/-- `omp_hash_map::reserve`: plan the capacity, then rehash; `none` is
the propagated `std::invalid_argument`. -/
def reserve (s : State K V) (m : Nat) : Option (State K V) :=
  (get_n_rehashing_buckets m).map (rehash hash s)

/-- The state in which a call of `reserve` leaves the container: on the
thrown exception nothing has been modified yet. -/
def reserve_run (s : State K V) (m : Nat) : State K V := (reserve hash s m).getD s

/-- `omp_hash_map::set(key, value)`, including the automatic growth
check `if (n_keys >= n_buckets * max_load_factor) rehash();` performed
after the handler (modelled at the default `max_load_factor = 1.0`,
where `rehash()` is `reserve(n_keys)`). -/
def set (s : State K V) (key : K) (value : V) : State K V :=
  let s1 := hash_node_apply hash s key (fun slot n_keys =>
    match slot with
    | [] => ([(key, value)], n_keys + 1)
    | node :: rest => ((node.1, value) :: rest, n_keys))
  if s1.n_buckets ≤ s1.n_keys then reserve_run hash s1 s1.n_keys else s1

/-- `omp_hash_map::set(key, setter)`: on an empty slot a value is
default-constructed (`V value;`), passed through the setter and linked;
on an existing node the setter updates the value in place. -/
def set_f (s : State K V) (key : K) (setter : V → V) : State K V :=
  let s1 := hash_node_apply hash s key (fun slot n_keys =>
    match slot with
    | [] => ([(key, setter default)], n_keys + 1)
    | node :: rest => ((node.1, setter node.2) :: rest, n_keys))
  if s1.n_buckets ≤ s1.n_keys then reserve_run hash s1 s1.n_keys else s1

/-- `omp_hash_map::set(key, setter, default_value)`: like `set_f` but the
fresh value starts from the caller-supplied default. -/
def set_fd (s : State K V) (key : K) (setter : V → V) (default_value : V) : State K V :=
  let s1 := hash_node_apply hash s key (fun slot n_keys =>
    match slot with
    | [] => ([(key, setter default_value)], n_keys + 1)
    | node :: rest => ((node.1, setter node.2) :: rest, n_keys))
  if s1.n_buckets ≤ s1.n_keys then reserve_run hash s1 s1.n_keys else s1

/-- `omp_hash_map::unset`: a non-empty slot is replaced by the node's
`next` link and `n_keys` is decremented (the decrement only runs when a
node is present, so the counter never underflows in well-formed states);
no growth check. -/
def unset (s : State K V) (key : K) : State K V :=
  hash_node_apply hash s key (fun slot n_keys =>
    match slot with
    | [] => ([], n_keys)
    | _ :: rest => (rest, n_keys - 1))

/-- `omp_hash_map::has`: the read-only handler records whether the
located slot holds a node. -/
def has (s : State K V) (key : K) : Bool :=
  match find_slot Prod.fst key (s.buckets.getD (bucket_id hash s key) []) with
  | [] => false
  | _ :: _ => true

/-- `omp_hash_map::get_copy_or_default`: copy the value out of the
located slot if it holds a node, else keep the default. -/
def get_copy_or_default (s : State K V) (key : K) (default_value : V) : V :=
  match find_slot Prod.fst key (s.buckets.getD (bucket_id hash s key) []) with
  | [] => default_value
  | node :: _ => node.2

/-- `omp_hash_map::get_n_buckets`. -/
def get_n_buckets (s : State K V) : Nat := s.n_buckets

/-- `omp_hash_map::get_n_keys`. -/
def get_n_keys (s : State K V) : Nat := s.n_keys

/-- `std::vector::resize`: truncate or pad with the given element. -/
def list_resize {β : Type} (l : List β) (n : Nat) (pad : β) : List β :=
  l.take n ++ List.replicate (n - l.length) pad

/-- `omp_hash_map::clear`: `buckets.resize(N_INITIAL_BUCKETS)`, reset
every remaining bucket, zero `n_keys`.  The scalar `n_buckets` is not
assigned by the source. -/
def clear (s : State K V) : State K V :=
  { s with
    buckets := (list_resize s.buckets N_INITIAL_BUCKETS []).map (fun _ => []),
    n_keys := 0 }

/-- The specification-side reading of one key of the container: the value
stored at `key`, found by walking the bucket the engine would access. -/
def lookup (s : State K V) (key : K) : Option V :=
  match find_slot Prod.fst key (s.buckets.getD (bucket_id hash s key) []) with
  | [] => none
  | node :: _ => some node.2

/-- One public mutating operation of the map variant. -/
inductive Op (K V : Type) where
  | set (key : K) (value : V)
  | set_f (key : K) (setter : V → V)
  | set_fd (key : K) (setter : V → V) (default_value : V)
  | unset (key : K)
  | reserve (m : Nat)
  | clear

/-- Run one public operation (a thrown `CapacityExceeded` leaves the
state exactly as it was at the throw point). -/
def run_op (s : State K V) : Op K V → State K V
  | .set k v => set hash s k v
  | .set_f k f => set_f hash s k f
  | .set_fd k f d => set_fd hash s k f d
  | .unset k => unset hash s k
  | .reserve m => reserve_run hash s m
  | .clear => clear s

/-- Run a sequence of public operations. -/
def run (s : State K V) (ops : List (Op K V)) : State K V := ops.foldl (run_op hash) s

/-- All entries of the container, in bucket order. -/
def entries (s : State K V) : List (K × V) := s.buckets.flatten

/-- Well-formedness of a map state: the scalar `n_buckets` is the bucket
array length and positive, every entry sits in the bucket its hash
selects, keys are globally distinct, and `n_keys` counts the entries. -/
def wf (s : State K V) : Prop :=
  s.n_buckets = s.buckets.length ∧
  0 < s.n_buckets ∧
  (∀ i < s.buckets.length, ∀ e ∈ s.buckets.getD i [], hash e.1 % s.n_buckets = i) ∧
  ((entries s).map Prod.fst).Nodup ∧
  s.n_keys = (entries s).length

instance wf_decidable (s : State K V) : Decidable (wf hash s) := by
  unfold wf; infer_instance

/-- Is the operation a `clear`? -/
def op_is_clear : Op K V → Bool
  | .clear => true
  | _ => false

/-- Does the operation insert (or upsert) the given key? -/
def op_inserts (k : K) : Op K V → Bool
  | .set k2 _ => k2 = k
  | .set_f k2 _ => k2 = k
  | .set_fd k2 _ _ => k2 = k
  | _ => false

/-- Is the operation `unset` of the given key? -/
def op_unsets (k : K) : Op K V → Bool
  | .unset k2 => k2 = k
  | _ => false

/-- No `clear` in the sequence. -/
def clear_free (ops : List (Op K V)) : Bool := ops.all (fun op => !op_is_clear op)

/-- Tracks whether `k` is "never inserted, or removed after its last
insert" along the sequence. -/
def key_absent_step (k : K) (b : Bool) (op : Op K V) : Bool :=
  if op_inserts k op then false else if op_unsets k op then true else b

/-- `k` was never inserted by `ops`, or was unset after its last insert. -/
def key_absent (ops : List (Op K V)) (k : K) : Bool :=
  ops.foldl (key_absent_step k) true

end omp_hash_map

namespace omp_hash_set

/-- The 20-entry table of `omp_hash_set::get_n_rehashing_buckets` (the
entry 15858 of the source table is not actually prime). -/
def SET_PRIME_NUMBERS : List Nat :=
  [11, 17, 29, 47, 79, 127, 211,
   337, 547, 887, 1433, 2311, 3739, 6053,
   9791, 15858, 25667, 41539, 67213, 104729]

def SET_N_PRIME_NUMBERS : Nat := SET_PRIME_NUMBERS.length

def SET_LAST_PRIME_NUMBER : Nat := 104729

def DIVISION_FACTOR : Nat := 15858

/-- One iteration of the planner's `for (i = 0; i < 3; i++)` loop body. -/
def division_step (p : Nat × Nat) : Nat × Nat :=
  if SET_LAST_PRIME_NUMBER < p.1 then (p.1 / DIVISION_FACTOR, p.2 * DIVISION_FACTOR) else p

/-- `omp_hash_set::get_n_rehashing_buckets`: up to three multiplications
by `DIVISION_FACTOR`, then the first table entry at least as large as
the remaining factor; `none` models `throw std::invalid_argument`. -/
def get_n_rehashing_buckets (n_buckets_in : Nat) : Option Nat :=
  let p := division_step (division_step (division_step (n_buckets_in, 1)))
  if SET_LAST_PRIME_NUMBER < p.1 then none
  else
    let left := lower_bound SET_PRIME_NUMBERS p.1 SET_N_PRIME_NUMBERS 0 (SET_N_PRIME_NUMBERS - 1)
    some (p.2 * SET_PRIME_NUMBERS.getD left 0)

def SET_N_INITIAL_BUCKETS : Nat := 11

/-- The observable state of an `omp_hash_set<K>`. -/
structure SetState (K : Type) where
  n_keys : Nat
  n_buckets : Nat
  buckets : List (List K)
deriving DecidableEq

variable {K : Type} [DecidableEq K] (hash : K → Nat)

/-- The constructor `omp_hash_set()`. -/
def construct_set : SetState K :=
  { n_keys := 0, n_buckets := SET_N_INITIAL_BUCKETS,
    buckets := List.replicate SET_N_INITIAL_BUCKETS [] }

/-- The bucket index computed by the set variant's point-access engine. -/
def set_bucket_id (s : SetState K) (key : K) : Nat := hash key % s.n_buckets

/-- `omp_hash_set::hash_node_apply` (keyed form), sequential semantics. -/
def set_hash_node_apply (s : SetState K) (key : K)
    (node_handler : List K → Nat → List K × Nat) : SetState K :=
  let b := set_bucket_id hash s key
  let r := hash_node_apply_recursive id key node_handler (s.buckets.getD b []) s.n_keys
  { s with buckets := s.buckets.set b r.1, n_keys := r.2 }

/-- The rehashing node handler of `omp_hash_set::rehash`. -/
def set_rehash_insert_node (n_rehashing_buckets : Nat)
    (rehashing_buckets : List (List K)) (node : K) : List (List K) :=
  let b := hash node % n_rehashing_buckets
  let r := hash_node_apply_recursive id node (fun _ n => ([node], n))
    (rehashing_buckets.getD b []) 0
  rehashing_buckets.set b r.1

/-- Post-order rehoming of one old chain (set variant). -/
def set_rehash_chain (n_rehashing_buckets : Nat)
    (rehashing_buckets : List (List K)) : List K → List (List K)
  | [] => rehashing_buckets
  | node :: rest =>
    set_rehash_insert_node hash n_rehashing_buckets
      (set_rehash_chain n_rehashing_buckets rehashing_buckets rest) node

/-- `omp_hash_set::rehash(n_rehashing_buckets)`. -/
def set_rehash (s : SetState K) (n_rehashing_buckets : Nat) : SetState K :=
  if n_rehashing_buckets ≤ s.n_buckets then s
  else
    { s with
      buckets := s.buckets.foldl (set_rehash_chain hash n_rehashing_buckets)
        (List.replicate n_rehashing_buckets []),
      n_buckets := n_rehashing_buckets }

/-- `omp_hash_set::reserve`. -/
def set_reserve (s : SetState K) (m : Nat) : Option (SetState K) :=
  (get_n_rehashing_buckets m).map (set_rehash hash s)

/-- The state a call of the set variant's `reserve` leaves behind. -/
def set_reserve_run (s : SetState K) (m : Nat) : SetState K := (set_reserve hash s m).getD s

/-- `omp_hash_set::add`, including the automatic growth check after the
handler (default `max_load_factor = 1.0`). -/
def add (s : SetState K) (key : K) : SetState K :=
  let s1 := set_hash_node_apply hash s key (fun slot n_keys =>
    match slot with
    | [] => ([key], n_keys + 1)
    | node :: rest => (node :: rest, n_keys))
  if s1.n_buckets ≤ s1.n_keys then set_reserve_run hash s1 s1.n_keys else s1

/-- `omp_hash_set::remove`. -/
def remove (s : SetState K) (key : K) : SetState K :=
  set_hash_node_apply hash s key (fun slot n_keys =>
    match slot with
    | [] => ([], n_keys)
    | _ :: rest => (rest, n_keys - 1))

/-- `omp_hash_set::has`. -/
def set_has (s : SetState K) (key : K) : Bool :=
  match find_slot id key (s.buckets.getD (set_bucket_id hash s key) []) with
  | [] => false
  | _ :: _ => true

/-- `omp_hash_set::get_n_buckets`. -/
def set_get_n_buckets (s : SetState K) : Nat := s.n_buckets

/-- `omp_hash_set::get_n_keys`. -/
def set_get_n_keys (s : SetState K) : Nat := s.n_keys

/-- `omp_hash_set::clear`: `buckets.resize(N_INITIAL_BUCKETS)`, reset
every remaining bucket, zero `n_keys`; the scalar `n_buckets` is not
assigned by the source. -/
def set_clear (s : SetState K) : SetState K :=
  { s with
    buckets := (omp_hash_map.list_resize s.buckets SET_N_INITIAL_BUCKETS []).map
      (fun _ => []),
    n_keys := 0 }

/-- One public mutating operation of the set variant. -/
inductive SOp (K : Type) where
  | add (key : K)
  | remove (key : K)
  | reserve (m : Nat)
  | clear

/-- Run one public operation of the set variant. -/
def run_set_op (s : SetState K) : SOp K → SetState K
  | .add k => add hash s k
  | .remove k => remove hash s k
  | .reserve m => set_reserve_run hash s m
  | .clear => set_clear s

/-- Run a sequence of public operations of the set variant. -/
def run_set (s : SetState K) (ops : List (SOp K)) : SetState K :=
  ops.foldl (run_set_op hash) s

/-- Well-formedness of a set state. -/
def swf (s : SetState K) : Prop :=
  s.n_buckets = s.buckets.length ∧
  0 < s.n_buckets ∧
  (∀ i < s.buckets.length, ∀ e ∈ s.buckets.getD i [], hash e % s.n_buckets = i) ∧
  s.buckets.flatten.Nodup ∧
  s.n_keys = s.buckets.flatten.length

instance swf_decidable (s : SetState K) : Decidable (swf hash s) := by
  unfold swf; infer_instance

end omp_hash_set

section ChainLemmas

variable {α K : Type} [DecidableEq K] (keyOf : α → K) (key : K)

lemma before_append_find (c : List α) :
    before_slot keyOf key c ++ find_slot keyOf key c = c := by
  induction c with
  | nil => simp [before_slot, find_slot]
  | cons node rest ih =>
    by_cases h : keyOf node = key
    · simp [before_slot, find_slot, h]
    · simp [before_slot, find_slot, h, ih]

lemma before_slot_keys (c : List α) :
    key ∉ (before_slot keyOf key c).map keyOf := by
  induction c with
  | nil => simp [before_slot]
  | cons node rest ih =>
    by_cases h : keyOf node = key
    · simp [before_slot, h]
    · simp only [before_slot, if_neg h, List.map_cons, List.mem_cons]
      push_neg
      exact ⟨fun e => h e.symm, ih⟩

lemma find_slot_eq_nil (c : List α) :
    find_slot keyOf key c = [] ↔ key ∉ c.map keyOf := by
  induction c with
  | nil => simp [find_slot]
  | cons node rest ih =>
    by_cases h : keyOf node = key
    · simp [find_slot, h]
    · simp only [find_slot, if_neg h, List.map_cons, List.mem_cons]
      rw [ih]
      constructor
      · intro hn hor
        rcases hor with he | hm
        · exact h he.symm
        · exact hn hm
      · intro hn hm
        exact hn (Or.inr hm)

lemma find_slot_head (c : List α) (node : α) (rest : List α)
    (h : find_slot keyOf key c = node :: rest) : keyOf node = key := by
  induction c with
  | nil => simp [find_slot] at h
  | cons n2 r2 ih =>
    by_cases hk : keyOf n2 = key
    · simp only [find_slot, if_pos hk] at h
      cases h
      exact hk
    · simp only [find_slot, if_neg hk] at h
      exact ih h

lemma find_slot_subset (c : List α) : ∀ x ∈ find_slot keyOf key c, x ∈ c := by
  intro x hx
  rw [← before_append_find keyOf key c]
  exact List.mem_append_right _ hx

lemma apply_rec_eq (node_handler : List α → Nat → List α × Nat) (c : List α) (n : Nat) :
    hash_node_apply_recursive keyOf key node_handler c n =
      (before_slot keyOf key c ++ (node_handler (find_slot keyOf key c) n).1,
       (node_handler (find_slot keyOf key c) n).2) := by
  induction c with
  | nil => simp [hash_node_apply_recursive, before_slot, find_slot]
  | cons node rest ih =>
    by_cases h : keyOf node = key
    · simp [hash_node_apply_recursive, before_slot, find_slot, h]
    · simp [hash_node_apply_recursive, before_slot, find_slot, h, ih]

end ChainLemmas

section ListHelpers

variable {β : Type}

lemma list_set_split :
    ∀ (l : List β) (i : Nat), i < l.length → ∀ (c d : β),
      l = l.take i ++ l.getD i d :: l.drop (i + 1) ∧
      l.set i c = l.take i ++ c :: l.drop (i + 1) := by
  intro l
  induction l with
  | nil => intro i h; simp at h
  | cons x xs ih =>
    intro i h c d
    cases i with
    | zero => simp
    | succ j =>
      have hj : j < xs.length := by simpa using h
      obtain ⟨h1, h2⟩ := ih j hj c d
      constructor
      · simpa using congrArg (x :: ·) h1
      · simpa using congrArg (x :: ·) h2

lemma getD_set_self :
    ∀ (l : List β) (i : Nat) (c d : β), i < l.length → (l.set i c).getD i d = c := by
  intro l
  induction l with
  | nil => intro i c d h; simp at h
  | cons x xs ih =>
    intro i c d h
    cases i with
    | zero => simp
    | succ j => simpa using ih j c d (by simpa using h)

lemma getD_set_other :
    ∀ (l : List β) (i j : Nat) (c d : β), i ≠ j → (l.set i c).getD j d = l.getD j d := by
  intro l
  induction l with
  | nil => intro i j c d h; simp
  | cons x xs ih =>
    intro i j c d h
    cases i with
    | zero =>
      cases j with
      | zero => exact absurd rfl h
      | succ j2 => simp
    | succ i2 =>
      cases j with
      | zero => simp
      | succ j2 => simpa using ih i2 j2 c d (fun e => h (by rw [e]))

lemma set_getD_self :
    ∀ (l : List β) (i : Nat) (d : β), i < l.length → l.set i (l.getD i d) = l := by
  intro l
  induction l with
  | nil => intro i d h; simp at h
  | cons x xs ih =>
    intro i d h
    cases i with
    | zero => simp
    | succ j => simpa using ih j d (by simpa using h)

lemma nodup_keys_unique {K V : Type} {c : List (K × V)} (h : (c.map Prod.fst).Nodup)
    {k : K} {v v2 : V} (h1 : (k, v) ∈ c) (h2 : (k, v2) ∈ c) : v = v2 := by
  induction c with
  | nil => simp at h1
  | cons e rest ih =>
    simp only [List.map_cons, List.nodup_cons] at h
    rcases List.mem_cons.1 h1 with he1 | h1r
    · rcases List.mem_cons.1 h2 with he2 | h2r
      · rw [← he1] at he2
        exact (congrArg Prod.snd he2).symm
      · exfalso
        apply h.1
        rw [← he1]
        simpa using List.mem_map_of_mem Prod.fst h2r
    · rcases List.mem_cons.1 h2 with he2 | h2r
      · exfalso
        apply h.1
        rw [← he2]
        simpa using List.mem_map_of_mem Prod.fst h1r
      · exact ih h.2 h1r h2r

end ListHelpers

section PlannerLemmas

lemma lower_bound_le (primes : List Nat) (r : Nat) :
    ∀ (fuel left right : Nat), left ≤ right →
      left ≤ lower_bound primes r fuel left right ∧
        lower_bound primes r fuel left right ≤ right := by
  intro fuel
  induction fuel with
  | zero => intro left right h; exact ⟨le_refl _, h⟩
  | succ n ih =>
    intro left right h
    simp only [lower_bound]
    split
    · next hlt =>
      split
      · have := ih ((left + right) / 2 + 1) right (by omega)
        exact ⟨by omega, this.2⟩
      · have := ih left ((left + right) / 2) (by omega)
        exact ⟨this.1, by omega⟩
    · exact ⟨le_refl _, h⟩

lemma mem_of_getD (l : List Nat) (i : Nat) (h : i < l.length) : l.getD i 0 ∈ l := by
  rw [List.getD_eq_getElem l 0 h]
  exact List.getElem_mem h

lemma map_planner_mem (m c : Nat) (h : omp_hash_map.get_n_rehashing_buckets m = some c) :
    ∃ p ∈ omp_hash_map.PRIME_NUMBERS, c = p ∨ c = 817504253 * p := by
  unfold omp_hash_map.get_n_rehashing_buckets at h
  have hN : omp_hash_map.N_PRIME_NUMBERS = 29 := rfl
  by_cases h1 : omp_hash_map.LAST_PRIME_NUMBER < m
  · rw [if_pos h1] at h
    by_cases h2 : omp_hash_map.LAST_PRIME_NUMBER < m / 817504253
    · rw [if_pos h2] at h
      exact absurd h (by simp)
    · rw [if_neg h2] at h
      simp only [Option.some.injEq] at h
      refine ⟨omp_hash_map.PRIME_NUMBERS.getD
        (lower_bound omp_hash_map.PRIME_NUMBERS (m / 817504253)
          omp_hash_map.N_PRIME_NUMBERS 0 (omp_hash_map.N_PRIME_NUMBERS - 1)) 0, ?_, ?_⟩
      · apply mem_of_getD
        have hb := (lower_bound_le omp_hash_map.PRIME_NUMBERS (m / 817504253)
          omp_hash_map.N_PRIME_NUMBERS 0 (omp_hash_map.N_PRIME_NUMBERS - 1) (Nat.zero_le _)).2
        have hlen : omp_hash_map.PRIME_NUMBERS.length = 29 := rfl
        omega
      · right
        exact h.symm
  · rw [if_neg h1] at h
    have h2 : ¬ omp_hash_map.LAST_PRIME_NUMBER < m := h1
    rw [if_neg h2] at h
    simp only [Option.some.injEq] at h
    refine ⟨omp_hash_map.PRIME_NUMBERS.getD
      (lower_bound omp_hash_map.PRIME_NUMBERS m
        omp_hash_map.N_PRIME_NUMBERS 0 (omp_hash_map.N_PRIME_NUMBERS - 1)) 0, ?_, ?_⟩
    · apply mem_of_getD
      have hb := (lower_bound_le omp_hash_map.PRIME_NUMBERS m
        omp_hash_map.N_PRIME_NUMBERS 0 (omp_hash_map.N_PRIME_NUMBERS - 1) (Nat.zero_le _)).2
      have hlen : omp_hash_map.PRIME_NUMBERS.length = 29 := rfl
      omega
    · left
      rw [← h]
      exact one_mul _

lemma map_planner_fixed :
    ∀ p ∈ omp_hash_map.PRIME_NUMBERS,
      omp_hash_map.get_n_rehashing_buckets p = some p ∧
        omp_hash_map.get_n_rehashing_buckets (817504253 * p) = some (817504253 * p) := by
  decide

lemma map_planner_none_iff (m : Nat) :
    omp_hash_map.get_n_rehashing_buckets m = none ↔ 2147483647 < m / 817504253 := by
  unfold omp_hash_map.get_n_rehashing_buckets
  by_cases h1 : omp_hash_map.LAST_PRIME_NUMBER < m
  · rw [if_pos h1]
    by_cases h2 : omp_hash_map.LAST_PRIME_NUMBER < m / 817504253
    · rw [if_pos h2]
      simpa using h2
    · rw [if_neg h2]
      simpa using h2
  · rw [if_neg h1]
    have hmle : m ≤ 2147483647 := by
      simpa [omp_hash_map.LAST_PRIME_NUMBER] using h1
    have h2 : ¬ omp_hash_map.LAST_PRIME_NUMBER < m := h1
    rw [if_neg h2]
    have : m / 817504253 ≤ m := Nat.div_le_self m 817504253
    simp only [omp_hash_map.LAST_PRIME_NUMBER] at *
    constructor
    · intro hc
      exact absurd hc (by simp)
    · intro hc
      omega

end PlannerLemmas

section SetPlannerLemmas

lemma set_planner_unfold (m : Nat) :
    omp_hash_set.get_n_rehashing_buckets m =
      (if omp_hash_set.SET_LAST_PRIME_NUMBER <
          (omp_hash_set.division_step (omp_hash_set.division_step
            (omp_hash_set.division_step (m, 1)))).1 then none
       else
         some ((omp_hash_set.division_step (omp_hash_set.division_step
             (omp_hash_set.division_step (m, 1)))).2 *
           omp_hash_set.SET_PRIME_NUMBERS.getD
             (lower_bound omp_hash_set.SET_PRIME_NUMBERS
               (omp_hash_set.division_step (omp_hash_set.division_step
                 (omp_hash_set.division_step (m, 1)))).1
               omp_hash_set.SET_N_PRIME_NUMBERS 0
               (omp_hash_set.SET_N_PRIME_NUMBERS - 1)) 0)) := rfl

lemma set_division_chain (m : Nat) :
    (omp_hash_set.division_step (omp_hash_set.division_step
        (omp_hash_set.division_step (m, 1)))).1 = m ∧
      (omp_hash_set.division_step (omp_hash_set.division_step
        (omp_hash_set.division_step (m, 1)))).2 = 1 ∧ m ≤ 104729 ∨
    (omp_hash_set.division_step (omp_hash_set.division_step
        (omp_hash_set.division_step (m, 1)))).1 = m / 15858 ∧
      (omp_hash_set.division_step (omp_hash_set.division_step
        (omp_hash_set.division_step (m, 1)))).2 = 15858 ∧ m / 15858 ≤ 104729 ∨
    (omp_hash_set.division_step (omp_hash_set.division_step
        (omp_hash_set.division_step (m, 1)))).1 = m / 15858 / 15858 ∧
      (omp_hash_set.division_step (omp_hash_set.division_step
        (omp_hash_set.division_step (m, 1)))).2 = 15858 * 15858 ∧
        m / 15858 / 15858 ≤ 104729 ∨
    (omp_hash_set.division_step (omp_hash_set.division_step
        (omp_hash_set.division_step (m, 1)))).1 = m / 15858 / 15858 / 15858 ∧
      (omp_hash_set.division_step (omp_hash_set.division_step
        (omp_hash_set.division_step (m, 1)))).2 = 15858 * 15858 * 15858 := by
  by_cases h1 : 104729 < m
  · have e1 : omp_hash_set.division_step (m, 1) = (m / 15858, 15858) := by
      unfold omp_hash_set.division_step
      rw [if_pos (show omp_hash_set.SET_LAST_PRIME_NUMBER < (m, (1 : Nat)).1 from h1)]
      show (m / omp_hash_set.DIVISION_FACTOR, 1 * omp_hash_set.DIVISION_FACTOR) =
        (m / 15858, 15858)
      rw [omp_hash_set.DIVISION_FACTOR]
    rw [e1]
    by_cases h2 : 104729 < m / 15858
    · have e2 : omp_hash_set.division_step (m / 15858, 15858) =
          (m / 15858 / 15858, 15858 * 15858) := by
        unfold omp_hash_set.division_step
        rw [if_pos (show omp_hash_set.SET_LAST_PRIME_NUMBER <
          (m / 15858, (15858 : Nat)).1 from h2)]
        show (m / 15858 / omp_hash_set.DIVISION_FACTOR,
          15858 * omp_hash_set.DIVISION_FACTOR) = (m / 15858 / 15858, 15858 * 15858)
        rw [omp_hash_set.DIVISION_FACTOR]
      rw [e2]
      by_cases h3 : 104729 < m / 15858 / 15858
      · have e3 : omp_hash_set.division_step (m / 15858 / 15858, 15858 * 15858) =
            (m / 15858 / 15858 / 15858, 15858 * 15858 * 15858) := by
          unfold omp_hash_set.division_step
          rw [if_pos (show omp_hash_set.SET_LAST_PRIME_NUMBER <
            (m / 15858 / 15858, (15858 * 15858 : Nat)).1 from h3)]
          show (m / 15858 / 15858 / omp_hash_set.DIVISION_FACTOR,
            15858 * 15858 * omp_hash_set.DIVISION_FACTOR) =
            (m / 15858 / 15858 / 15858, 15858 * 15858 * 15858)
          rw [omp_hash_set.DIVISION_FACTOR]
        rw [e3]
        right; right; right
        exact ⟨rfl, rfl⟩
      · have e3 : omp_hash_set.division_step (m / 15858 / 15858, 15858 * 15858) =
            (m / 15858 / 15858, 15858 * 15858) := by
          unfold omp_hash_set.division_step
          rw [if_neg (show ¬ omp_hash_set.SET_LAST_PRIME_NUMBER <
            (m / 15858 / 15858, (15858 * 15858 : Nat)).1 from h3)]
        rw [e3]
        right; right; left
        exact ⟨rfl, rfl, by omega⟩
    · have e2 : omp_hash_set.division_step (m / 15858, 15858) = (m / 15858, 15858) := by
        unfold omp_hash_set.division_step
        rw [if_neg (show ¬ omp_hash_set.SET_LAST_PRIME_NUMBER <
          (m / 15858, (15858 : Nat)).1 from h2)]
      rw [e2, e2]
      right; left
      exact ⟨rfl, rfl, by omega⟩
  · have e1 : omp_hash_set.division_step (m, 1) = (m, 1) := by
      unfold omp_hash_set.division_step
      rw [if_neg (show ¬ omp_hash_set.SET_LAST_PRIME_NUMBER < (m, (1 : Nat)).1 from h1)]
    rw [e1, e1, e1]
    left
    exact ⟨rfl, rfl, by omega⟩

lemma set_planner_mem (m c : Nat) (h : omp_hash_set.get_n_rehashing_buckets m = some c) :
    ∃ p ∈ omp_hash_set.SET_PRIME_NUMBERS,
      c = p ∨ c = 15858 * p ∨ c = 15858 * 15858 * p ∨ c = 15858 * 15858 * 15858 * p := by
  rw [set_planner_unfold] at h
  by_cases hfail : omp_hash_set.SET_LAST_PRIME_NUMBER <
      (omp_hash_set.division_step (omp_hash_set.division_step
        (omp_hash_set.division_step (m, 1)))).1
  · rw [if_pos hfail] at h
    exact absurd h (by simp)
  · rw [if_neg hfail] at h
    simp only [Option.some.injEq] at h
    have hb := (lower_bound_le omp_hash_set.SET_PRIME_NUMBERS
      (omp_hash_set.division_step (omp_hash_set.division_step
        (omp_hash_set.division_step (m, 1)))).1
      omp_hash_set.SET_N_PRIME_NUMBERS 0 (omp_hash_set.SET_N_PRIME_NUMBERS - 1)
      (Nat.zero_le _)).2
    have hlen : omp_hash_set.SET_PRIME_NUMBERS.length = 20 := rfl
    have hN : omp_hash_set.SET_N_PRIME_NUMBERS = 20 := rfl
    refine ⟨omp_hash_set.SET_PRIME_NUMBERS.getD
      (lower_bound omp_hash_set.SET_PRIME_NUMBERS
        (omp_hash_set.division_step (omp_hash_set.division_step
          (omp_hash_set.division_step (m, 1)))).1
        omp_hash_set.SET_N_PRIME_NUMBERS 0 (omp_hash_set.SET_N_PRIME_NUMBERS - 1)) 0,
      mem_of_getD _ _ (by omega), ?_⟩
    rcases set_division_chain m with ⟨_, h2, _⟩ | ⟨_, h2, _⟩ | ⟨_, h2, _⟩ | ⟨_, h2⟩
    · left
      rw [← h, h2, one_mul]
    · right; left
      rw [← h, h2]
    · right; right; left
      rw [← h, h2]
    · right; right; right
      rw [← h, h2]

lemma set_planner_fixed :
    ∀ p ∈ omp_hash_set.SET_PRIME_NUMBERS,
      omp_hash_set.get_n_rehashing_buckets p = some p ∧
        omp_hash_set.get_n_rehashing_buckets (15858 * p) = some (15858 * p) ∧
        omp_hash_set.get_n_rehashing_buckets (15858 * 15858 * p) =
          some (15858 * 15858 * p) ∧
        omp_hash_set.get_n_rehashing_buckets (15858 * 15858 * 15858 * p) =
          some (15858 * 15858 * 15858 * p) := by
  decide

lemma set_planner_none_iff (m : Nat) :
    omp_hash_set.get_n_rehashing_buckets m = none ↔
      104729 < m / (15858 * 15858 * 15858) := by
  rw [set_planner_unfold]
  have hdd : m / 15858 / 15858 / 15858 = m / (15858 * 15858 * 15858) := by
    rw [Nat.div_div_eq_div_mul, Nat.div_div_eq_div_mul]
  have hd1 : m / (15858 * 15858 * 15858) ≤ m := Nat.div_le_self _ _
  have hd2 : m / (15858 * 15858 * 15858) ≤ m / 15858 := by
    rw [← hdd, Nat.div_div_eq_div_mul, Nat.div_div_eq_div_mul]
    exact Nat.div_le_div_left (by norm_num) (by norm_num)
  have hd3 : m / (15858 * 15858 * 15858) ≤ m / 15858 / 15858 := by
    rw [← hdd]
    exact Nat.div_le_self _ _
  rcases set_division_chain m with ⟨h1, _, h3⟩ | ⟨h1, _, h3⟩ | ⟨h1, _, h3⟩ | ⟨h1, _⟩ <;>
    rw [h1]
  · have hc : ¬ omp_hash_set.SET_LAST_PRIME_NUMBER < m := by
      simp only [omp_hash_set.SET_LAST_PRIME_NUMBER]
      omega
    rw [if_neg hc]
    constructor
    · intro hx
      exact absurd hx (by simp)
    · intro hx
      omega
  · have hc : ¬ omp_hash_set.SET_LAST_PRIME_NUMBER < m / 15858 := by
      simp only [omp_hash_set.SET_LAST_PRIME_NUMBER]
      omega
    rw [if_neg hc]
    constructor
    · intro hx
      exact absurd hx (by simp)
    · intro hx
      omega
  · have hc : ¬ omp_hash_set.SET_LAST_PRIME_NUMBER < m / 15858 / 15858 := by
      simp only [omp_hash_set.SET_LAST_PRIME_NUMBER]
      omega
    rw [if_neg hc]
    constructor
    · intro hx
      exact absurd hx (by simp)
    · intro hx
      omega
  · rw [hdd]
    by_cases hc : omp_hash_set.SET_LAST_PRIME_NUMBER < m / (15858 * 15858 * 15858)
    · rw [if_pos hc]
      simpa [omp_hash_set.SET_LAST_PRIME_NUMBER] using hc
    · rw [if_neg hc]
      simp only [omp_hash_set.SET_LAST_PRIME_NUMBER] at hc
      constructor
      · intro hx
        exact absurd hx (by simp)
      · intro hx
        omega

end SetPlannerLemmas

section MapBasicLemmas

variable {K V : Type} [DecidableEq K] [Inhabited V] (hash : K → Nat)

lemma map_rehash_le (s : omp_hash_map.State K V) (n2 : Nat) (h : n2 ≤ s.n_buckets) :
    omp_hash_map.rehash hash s n2 = s := by
  unfold omp_hash_map.rehash
  rw [if_pos h]

lemma map_rehash_n_buckets (s : omp_hash_map.State K V) (n2 : Nat) :
    (omp_hash_map.rehash hash s n2).n_buckets =
      if n2 ≤ s.n_buckets then s.n_buckets else n2 := by
  unfold omp_hash_map.rehash
  split
  · rfl
  · rfl

lemma map_rehash_n_keys (s : omp_hash_map.State K V) (n2 : Nat) :
    (omp_hash_map.rehash hash s n2).n_keys = s.n_keys := by
  unfold omp_hash_map.rehash
  split
  · rfl
  · rfl

lemma map_reserve_run_none (s : omp_hash_map.State K V) (m : Nat)
    (h : omp_hash_map.get_n_rehashing_buckets m = none) :
    omp_hash_map.reserve_run hash s m = s := by
  unfold omp_hash_map.reserve_run omp_hash_map.reserve
  rw [h]
  rfl

lemma map_reserve_run_some (s : omp_hash_map.State K V) (m n2 : Nat)
    (h : omp_hash_map.get_n_rehashing_buckets m = some n2) :
    omp_hash_map.reserve_run hash s m = omp_hash_map.rehash hash s n2 := by
  unfold omp_hash_map.reserve_run omp_hash_map.reserve
  rw [h]
  rfl

lemma map_reserve_run_n_buckets_ge (s : omp_hash_map.State K V) (m : Nat) :
    s.n_buckets ≤ (omp_hash_map.reserve_run hash s m).n_buckets := by
  cases hp : omp_hash_map.get_n_rehashing_buckets m with
  | none => rw [map_reserve_run_none hash s m hp]
  | some n2 =>
    rw [map_reserve_run_some hash s m n2 hp, map_rehash_n_buckets]
    split
    · exact le_refl _
    · next hlt => omega

lemma map_grow_n_buckets_ge (s1 : omp_hash_map.State K V) :
    s1.n_buckets ≤ (if s1.n_buckets ≤ s1.n_keys then
      omp_hash_map.reserve_run hash s1 s1.n_keys else s1).n_buckets := by
  split
  · exact map_reserve_run_n_buckets_ge hash s1 s1.n_keys
  · exact le_refl _

lemma map_op_n_buckets_mono (s : omp_hash_map.State K V) (op : omp_hash_map.Op K V)
    (h : op ≠ omp_hash_map.Op.clear) :
    s.n_buckets ≤ (omp_hash_map.run_op hash s op).n_buckets := by
  cases op with
  | set k v =>
    show s.n_buckets ≤ (omp_hash_map.set hash s k v).n_buckets
    unfold omp_hash_map.set
    dsimp only
    exact map_grow_n_buckets_ge hash
      (omp_hash_map.hash_node_apply hash s k fun slot n_keys =>
        match slot with
        | [] => ([(k, v)], n_keys + 1)
        | node :: rest => ((node.1, v) :: rest, n_keys))
  | set_f k f =>
    show s.n_buckets ≤ (omp_hash_map.set_f hash s k f).n_buckets
    unfold omp_hash_map.set_f
    dsimp only
    exact map_grow_n_buckets_ge hash
      (omp_hash_map.hash_node_apply hash s k fun slot n_keys =>
        match slot with
        | [] => ([(k, f default)], n_keys + 1)
        | node :: rest => ((node.1, f node.2) :: rest, n_keys))
  | set_fd k f d =>
    show s.n_buckets ≤ (omp_hash_map.set_fd hash s k f d).n_buckets
    unfold omp_hash_map.set_fd
    dsimp only
    exact map_grow_n_buckets_ge hash
      (omp_hash_map.hash_node_apply hash s k fun slot n_keys =>
        match slot with
        | [] => ([(k, f d)], n_keys + 1)
        | node :: rest => ((node.1, f node.2) :: rest, n_keys))
  | unset k => exact le_refl _
  | reserve m => exact map_reserve_run_n_buckets_ge hash s m
  | clear => exact absurd rfl h

lemma map_run_n_buckets_mono (ops : List (omp_hash_map.Op K V)) :
    ∀ s : omp_hash_map.State K V, omp_hash_map.clear_free ops = true →
      s.n_buckets ≤ (omp_hash_map.run hash s ops).n_buckets := by
  induction ops with
  | nil => intro s _; exact le_refl _
  | cons op rest ih =>
    intro s h
    simp only [omp_hash_map.clear_free, List.all_cons, Bool.and_eq_true] at h
    have h1 : op ≠ omp_hash_map.Op.clear := by
      intro e
      subst e
      simp [omp_hash_map.op_is_clear] at h
    calc s.n_buckets ≤ (omp_hash_map.run_op hash s op).n_buckets :=
        map_op_n_buckets_mono hash s op h1
      _ ≤ _ := ih (omp_hash_map.run_op hash s op) h.2

end MapBasicLemmas

section SetBasicLemmas

variable {K : Type} [DecidableEq K] (hash : K → Nat)

lemma set_rehash_le (s : omp_hash_set.SetState K) (n2 : Nat) (h : n2 ≤ s.n_buckets) :
    omp_hash_set.set_rehash hash s n2 = s := by
  unfold omp_hash_set.set_rehash
  rw [if_pos h]

lemma set_rehash_n_buckets (s : omp_hash_set.SetState K) (n2 : Nat) :
    (omp_hash_set.set_rehash hash s n2).n_buckets =
      if n2 ≤ s.n_buckets then s.n_buckets else n2 := by
  unfold omp_hash_set.set_rehash
  split
  · rfl
  · rfl

lemma set_rehash_n_keys (s : omp_hash_set.SetState K) (n2 : Nat) :
    (omp_hash_set.set_rehash hash s n2).n_keys = s.n_keys := by
  unfold omp_hash_set.set_rehash
  split
  · rfl
  · rfl

lemma set_reserve_run_none (s : omp_hash_set.SetState K) (m : Nat)
    (h : omp_hash_set.get_n_rehashing_buckets m = none) :
    omp_hash_set.set_reserve_run hash s m = s := by
  unfold omp_hash_set.set_reserve_run omp_hash_set.set_reserve
  rw [h]
  rfl

lemma set_reserve_run_some (s : omp_hash_set.SetState K) (m n2 : Nat)
    (h : omp_hash_set.get_n_rehashing_buckets m = some n2) :
    omp_hash_set.set_reserve_run hash s m = omp_hash_set.set_rehash hash s n2 := by
  unfold omp_hash_set.set_reserve_run omp_hash_set.set_reserve
  rw [h]
  rfl

lemma set_reserve_run_n_buckets_ge (s : omp_hash_set.SetState K) (m : Nat) :
    s.n_buckets ≤ (omp_hash_set.set_reserve_run hash s m).n_buckets := by
  cases hp : omp_hash_set.get_n_rehashing_buckets m with
  | none => rw [set_reserve_run_none hash s m hp]
  | some n2 =>
    rw [set_reserve_run_some hash s m n2 hp, set_rehash_n_buckets]
    split
    · exact le_refl _
    · next hlt => omega

lemma set_grow_n_buckets_ge (s1 : omp_hash_set.SetState K) :
    s1.n_buckets ≤ (if s1.n_buckets ≤ s1.n_keys then
      omp_hash_set.set_reserve_run hash s1 s1.n_keys else s1).n_buckets := by
  split
  · exact set_reserve_run_n_buckets_ge hash s1 s1.n_keys
  · exact le_refl _

lemma set_op_n_buckets_mono (s : omp_hash_set.SetState K) (op : omp_hash_set.SOp K)
    (h : op ≠ omp_hash_set.SOp.clear) :
    s.n_buckets ≤ (omp_hash_set.run_set_op hash s op).n_buckets := by
  cases op with
  | add k =>
    show s.n_buckets ≤ (omp_hash_set.add hash s k).n_buckets
    unfold omp_hash_set.add
    dsimp only
    exact set_grow_n_buckets_ge hash
      (omp_hash_set.set_hash_node_apply hash s k fun slot n_keys =>
        match slot with
        | [] => ([k], n_keys + 1)
        | node :: rest => (node :: rest, n_keys))
  | remove k => exact le_refl _
  | reserve m => exact set_reserve_run_n_buckets_ge hash s m
  | clear => exact absurd rfl h

lemma set_run_n_buckets_mono (ops : List (omp_hash_set.SOp K)) :
    ∀ s : omp_hash_set.SetState K,
      (ops.all (fun op => !(op matches omp_hash_set.SOp.clear))) = true →
      s.n_buckets ≤ (omp_hash_set.run_set hash s ops).n_buckets := by
  induction ops with
  | nil => intro s _; exact le_refl _
  | cons op rest ih =>
    intro s h
    simp only [List.all_cons, Bool.and_eq_true] at h
    have h1 : op ≠ omp_hash_set.SOp.clear := by
      intro e
      subst e
      simp at h
    calc s.n_buckets ≤ (omp_hash_set.run_set_op hash s op).n_buckets :=
        set_op_n_buckets_mono hash s op h1
      _ ≤ _ := ih (omp_hash_set.run_set_op hash s op) h.2

end SetBasicLemmas

section ChainAppendLemmas

variable {α K : Type} [DecidableEq K] (keyOf : α → K) (key : K)

lemma find_slot_append_absent (c1 c2 : List α) (h : find_slot keyOf key c1 = []) :
    find_slot keyOf key (c1 ++ c2) = find_slot keyOf key c2 := by
  induction c1 with
  | nil => simp
  | cons node rest ih =>
    by_cases hk : keyOf node = key
    · simp only [find_slot, if_pos hk] at h
      exact absurd h (by simp)
    · simp only [find_slot, if_neg hk] at h
      simp only [List.cons_append, find_slot, if_neg hk]
      exact ih h

lemma find_slot_append_found (c1 c2 : List α) (node : α) (rest : List α)
    (h : find_slot keyOf key c1 = node :: rest) :
    find_slot keyOf key (c1 ++ c2) = node :: (rest ++ c2) := by
  induction c1 with
  | nil => simp [find_slot] at h
  | cons n2 r2 ih =>
    by_cases hk : keyOf n2 = key
    · simp only [find_slot, if_pos hk] at h
      cases h
      simp only [List.cons_append, find_slot, if_pos hk]
      rfl
    · simp only [find_slot, if_neg hk] at h
      simp only [List.cons_append, find_slot, if_neg hk]
      exact ih h

end ChainAppendLemmas

section MapLookupLemmas

variable {K V : Type} [DecidableEq K] [Inhabited V] (hash : K → Nat)

lemma getD_mem_of_lt {β : Type} (l : List (List β)) (i : Nat) (h : i < l.length) :
    l.getD i [] ∈ l := by
  rw [List.getD_eq_getElem l [] h]
  exact List.getElem_mem h

lemma mem_flatten_of_bucket {β : Type} (l : List (List β)) (i : Nat) (h : i < l.length)
    (x : β) (hx : x ∈ l.getD i []) : x ∈ l.flatten :=
  List.mem_flatten.2 ⟨l.getD i [], getD_mem_of_lt l i h, hx⟩

lemma flatten_decomp {β : Type} (l : List (List β)) (i : Nat) (h : i < l.length) :
    l.flatten = (l.take i).flatten ++ (l.getD i [] ++ (l.drop (i + 1)).flatten) := by
  conv_lhs => rw [(list_set_split l i h [] []).1]
  simp

lemma flatten_set_decomp {β : Type} (l : List (List β)) (i : Nat) (h : i < l.length)
    (c : List β) :
    (l.set i c).flatten = (l.take i).flatten ++ (c ++ (l.drop (i + 1)).flatten) := by
  rw [(list_set_split l i h c []).2]
  simp

lemma chain_sublist_flatten {β : Type} (l : List (List β)) (i : Nat) (h : i < l.length) :
    (l.getD i []).Sublist l.flatten := by
  rw [flatten_decomp l i h]
  exact List.Sublist.trans (List.sublist_append_left _ _) (List.sublist_append_right _ _)

lemma map_bucket_id_lt (s : omp_hash_map.State K V) (hwf : omp_hash_map.wf hash s) (k : K) :
    omp_hash_map.bucket_id hash s k < s.buckets.length := by
  obtain ⟨h1, h2, _⟩ := hwf
  rw [← h1]
  exact Nat.mod_lt _ h2

lemma map_chain_keys_nodup (s : omp_hash_map.State K V) (hwf : omp_hash_map.wf hash s)
    (i : Nat) (h : i < s.buckets.length) :
    ((s.buckets.getD i []).map Prod.fst).Nodup := by
  obtain ⟨_, _, _, hnodup, _⟩ := hwf
  exact List.Nodup.sublist ((chain_sublist_flatten s.buckets i h).map Prod.fst) hnodup

lemma map_lookup_some_iff (s : omp_hash_map.State K V) (hwf : omp_hash_map.wf hash s)
    (k : K) (v : V) :
    omp_hash_map.lookup hash s k = some v ↔ (k, v) ∈ omp_hash_map.entries s := by
  have hb : omp_hash_map.bucket_id hash s k < s.buckets.length := map_bucket_id_lt hash s hwf k
  obtain ⟨hlen, hpos, hplace, hnodup, hcount⟩ := hwf
  constructor
  · intro h
    unfold omp_hash_map.lookup at h
    cases hfs : find_slot Prod.fst k
        (s.buckets.getD (omp_hash_map.bucket_id hash s k) []) with
    | nil => rw [hfs] at h; exact absurd h (by simp)
    | cons node rest =>
      rw [hfs] at h
      simp only [Option.some.injEq] at h
      have hkey : node.1 = k := find_slot_head Prod.fst k _ node rest hfs
      have hmem : node ∈ s.buckets.getD (omp_hash_map.bucket_id hash s k) [] :=
        find_slot_subset Prod.fst k _ node (hfs ▸ List.mem_cons_self node rest)
      have : (k, v) = node := by
        rw [← hkey, ← h]
      rw [this]
      exact mem_flatten_of_bucket s.buckets _ hb node hmem
  · intro h
    obtain ⟨c2, hc2, hmem⟩ := List.mem_flatten.1 h
    obtain ⟨i, hi, hget⟩ := List.mem_iff_getElem.1 hc2
    have hgetD : s.buckets.getD i [] = c2 := by
      rw [List.getD_eq_getElem s.buckets [] hi, hget]
    have hib : i = omp_hash_map.bucket_id hash s k := by
      have := hplace i hi (k, v) (by rw [hgetD]; exact hmem)
      unfold omp_hash_map.bucket_id
      rw [← this]
    have hmemb : (k, v) ∈ s.buckets.getD (omp_hash_map.bucket_id hash s k) [] := by
      rw [← hib, hgetD]
      exact hmem
    have hkeys : k ∈ (s.buckets.getD (omp_hash_map.bucket_id hash s k) []).map Prod.fst :=
      List.mem_map_of_mem Prod.fst hmemb
    unfold omp_hash_map.lookup
    cases hfs : find_slot Prod.fst k
        (s.buckets.getD (omp_hash_map.bucket_id hash s k) []) with
    | nil => exact absurd hkeys ((find_slot_eq_nil Prod.fst k _).1 hfs)
    | cons node rest =>
      have hkey : node.1 = k := find_slot_head Prod.fst k _ node rest hfs
      have hmemn : node ∈ s.buckets.getD (omp_hash_map.bucket_id hash s k) [] :=
        find_slot_subset Prod.fst k _ node (hfs ▸ List.mem_cons_self node rest)
      have hnode : (k, node.2) ∈ s.buckets.getD (omp_hash_map.bucket_id hash s k) [] := by
        have : (k, node.2) = node := by rw [← hkey]
        rw [this]
        exact hmemn
      have hchainnodup :
          ((s.buckets.getD (omp_hash_map.bucket_id hash s k) []).map Prod.fst).Nodup :=
        map_chain_keys_nodup hash s ⟨hlen, hpos, hplace, hnodup, hcount⟩ _ hb
      have : node.2 = v := nodup_keys_unique hchainnodup hnode hmemb
      show some node.2 = some v
      rw [this]

lemma map_lookup_none_iff (s : omp_hash_map.State K V) (hwf : omp_hash_map.wf hash s)
    (k : K) :
    omp_hash_map.lookup hash s k = none ↔
      k ∉ (omp_hash_map.entries s).map Prod.fst := by
  constructor
  · intro h hk
    obtain ⟨e, he, hek⟩ := List.mem_map.1 hk
    have : (k, e.2) ∈ omp_hash_map.entries s := by
      have : (k, e.2) = e := by rw [← hek]
      rw [this]
      exact he
    have := (map_lookup_some_iff hash s hwf k e.2).2 this
    rw [this] at h
    exact absurd h (by simp)
  · intro h
    cases hl : omp_hash_map.lookup hash s k with
    | none => rfl
    | some v =>
      have := (map_lookup_some_iff hash s hwf k v).1 hl
      exact absurd (List.mem_map_of_mem Prod.fst this) h

end MapLookupLemmas

section MapInsertPhase

variable {K V : Type} [DecidableEq K] [Inhabited V] (hash : K → Nat)

lemma find_slot_head_append {α K2 : Type} [DecidableEq K2] (keyOf : α → K2) (k2 : K2)
    (c1 c2 c3 : List α)
    (h23 : (find_slot keyOf k2 c2).head? = (find_slot keyOf k2 c3).head?) :
    (find_slot keyOf k2 (c1 ++ c2)).head? = (find_slot keyOf k2 (c1 ++ c3)).head? := by
  cases hfs : find_slot keyOf k2 c1 with
  | nil =>
    rw [find_slot_append_absent keyOf k2 c1 c2 hfs,
      find_slot_append_absent keyOf k2 c1 c3 hfs]
    exact h23
  | cons n r =>
    rw [find_slot_append_found keyOf k2 c1 c2 n r hfs,
      find_slot_append_found keyOf k2 c1 c3 n r hfs]
    rfl

lemma map_lookup_eq_head (s : omp_hash_map.State K V) (k : K) :
    omp_hash_map.lookup hash s k =
      (find_slot Prod.fst k
        (s.buckets.getD (omp_hash_map.bucket_id hash s k) [])).head?.map Prod.snd := by
  unfold omp_hash_map.lookup
  cases find_slot Prod.fst k (s.buckets.getD (omp_hash_map.bucket_id hash s k) []) with
  | nil => rfl
  | cons node rest => rfl

lemma map_insert_phase (s s1 : omp_hash_map.State K V) (hwf : omp_hash_map.wf hash s)
    (key : K) (fresh_val : V) (mod_val : V → V)
    (hd : List (K × V) → Nat → List (K × V) × Nat)
    (hnil : ∀ n, hd [] n = ([(key, fresh_val)], n + 1))
    (hcons : ∀ node rest n, hd (node :: rest) n = ((node.1, mod_val node.2) :: rest, n))
    (hs1 : s1 = omp_hash_map.hash_node_apply hash s key hd) :
    omp_hash_map.wf hash s1 ∧
    s1.n_buckets = s.n_buckets ∧
    omp_hash_map.lookup hash s1 key =
      some ((omp_hash_map.lookup hash s key).elim fresh_val mod_val) ∧
    (∀ k2, k2 ≠ key →
      omp_hash_map.lookup hash s1 k2 = omp_hash_map.lookup hash s k2) ∧
    s1.n_keys =
      (omp_hash_map.lookup hash s key).elim (s.n_keys + 1) (fun _ => s.n_keys) := by
  have hb := map_bucket_id_lt hash s hwf key
  have happ := apply_rec_eq Prod.fst key hd
    (s.buckets.getD (omp_hash_map.bucket_id hash s key) []) s.n_keys
  subst hs1
  have hbuckets : (omp_hash_map.hash_node_apply hash s key hd).buckets =
      s.buckets.set (omp_hash_map.bucket_id hash s key)
        (before_slot Prod.fst key
            (s.buckets.getD (omp_hash_map.bucket_id hash s key) []) ++
          (hd (find_slot Prod.fst key
              (s.buckets.getD (omp_hash_map.bucket_id hash s key) []))
            s.n_keys).1) := by
    show s.buckets.set (omp_hash_map.bucket_id hash s key)
        (hash_node_apply_recursive Prod.fst key hd
          (s.buckets.getD (omp_hash_map.bucket_id hash s key) []) s.n_keys).1 = _
    rw [happ]
  have hnkeys : (omp_hash_map.hash_node_apply hash s key hd).n_keys =
      (hd (find_slot Prod.fst key
          (s.buckets.getD (omp_hash_map.bucket_id hash s key) []))
        s.n_keys).2 := by
    show (hash_node_apply_recursive Prod.fst key hd
        (s.buckets.getD (omp_hash_map.bucket_id hash s key) []) s.n_keys).2 = _
    rw [happ]
  have hnb : (omp_hash_map.hash_node_apply hash s key hd).n_buckets = s.n_buckets := rfl
  have hbid : ∀ k2 : K,
      omp_hash_map.bucket_id hash (omp_hash_map.hash_node_apply hash s key hd) k2 =
        omp_hash_map.bucket_id hash s k2 := fun _ => rfl
  have hlensame : (omp_hash_map.hash_node_apply hash s key hd).buckets.length =
      s.buckets.length := by
    rw [hbuckets, List.length_set]
  cases hfs : find_slot Prod.fst key
      (s.buckets.getD (omp_hash_map.bucket_id hash s key) []) with
  | nil =>
    rw [hfs, hnil] at hbuckets hnkeys
    have hbefore : before_slot Prod.fst key
        (s.buckets.getD (omp_hash_map.bucket_id hash s key) []) =
        s.buckets.getD (omp_hash_map.bucket_id hash s key) [] := by
      have := before_append_find Prod.fst key
        (s.buckets.getD (omp_hash_map.bucket_id hash s key) [])
      rw [hfs, List.append_nil] at this
      exact this
    rw [hbefore] at hbuckets
    have hlknone : omp_hash_map.lookup hash s key = none := by
      unfold omp_hash_map.lookup
      rw [hfs]
    have hkeynot : key ∉ (omp_hash_map.entries s).map Prod.fst :=
      (map_lookup_none_iff hash s hwf key).1 hlknone
    have hE1 : omp_hash_map.entries (omp_hash_map.hash_node_apply hash s key hd) =
        (s.buckets.take (omp_hash_map.bucket_id hash s key)).flatten ++
          ((s.buckets.getD (omp_hash_map.bucket_id hash s key) [] ++
              [(key, fresh_val)]) ++
            (s.buckets.drop (omp_hash_map.bucket_id hash s key + 1)).flatten) := by
      unfold omp_hash_map.entries
      rw [hbuckets]
      exact flatten_set_decomp s.buckets _ hb _
    have hE0 : omp_hash_map.entries s =
        (s.buckets.take (omp_hash_map.bucket_id hash s key)).flatten ++
          (s.buckets.getD (omp_hash_map.bucket_id hash s key) [] ++
            (s.buckets.drop (omp_hash_map.bucket_id hash s key + 1)).flatten) :=
      flatten_decomp s.buckets _ hb
    have hperm : (omp_hash_map.entries
        (omp_hash_map.hash_node_apply hash s key hd)).Perm
        ((key, fresh_val) :: omp_hash_map.entries s) := by
      rw [hE1, hE0]
      have e1 : (s.buckets.take (omp_hash_map.bucket_id hash s key)).flatten ++
          ((s.buckets.getD (omp_hash_map.bucket_id hash s key) [] ++
              [(key, fresh_val)]) ++
            (s.buckets.drop (omp_hash_map.bucket_id hash s key + 1)).flatten) =
          ((s.buckets.take (omp_hash_map.bucket_id hash s key)).flatten ++
            s.buckets.getD (omp_hash_map.bucket_id hash s key) []) ++
            ((key, fresh_val) ::
              (s.buckets.drop (omp_hash_map.bucket_id hash s key + 1)).flatten) := by
        simp
      have e2 : (s.buckets.take (omp_hash_map.bucket_id hash s key)).flatten ++
          (s.buckets.getD (omp_hash_map.bucket_id hash s key) [] ++
            (s.buckets.drop (omp_hash_map.bucket_id hash s key + 1)).flatten) =
          ((s.buckets.take (omp_hash_map.bucket_id hash s key)).flatten ++
            s.buckets.getD (omp_hash_map.bucket_id hash s key) []) ++
            (s.buckets.drop (omp_hash_map.bucket_id hash s key + 1)).flatten := by
        simp
      rw [e1, e2]
      exact List.perm_middle
    refine ⟨⟨?_, ?_, ?_, ?_, ?_⟩, hnb, ?_, ?_, ?_⟩
    · rw [hnb, hlensame]
      exact hwf.1
    · rw [hnb]
      exact hwf.2.1
    · intro i hi e he
      rw [hlensame] at hi
      rw [hbuckets] at he
      rw [hnb]
      by_cases hib : i = omp_hash_map.bucket_id hash s key
      · subst hib
        rw [getD_set_self s.buckets _ _ _ hb] at he
        rcases List.mem_append.1 he with hmem | hmem
        · exact hwf.2.2.1 _ hi e hmem
        · have : e = (key, fresh_val) := by simpa using hmem
          rw [this]
          rfl
      · rw [getD_set_other s.buckets _ i _ _ (fun e2 => hib e2.symm)] at he
        exact hwf.2.2.1 i hi e he
    · have hnodup2 : (((key, fresh_val) :: omp_hash_map.entries s).map Prod.fst).Nodup := by
        simp only [List.map_cons, List.nodup_cons]
        exact ⟨hkeynot, hwf.2.2.2.1⟩
      exact ((hperm.map Prod.fst).symm).nodup hnodup2
    · rw [hnkeys]
      show s.n_keys + 1 = _
      rw [hperm.length_eq]
      show s.n_keys + 1 = (omp_hash_map.entries s).length + 1
      rw [hwf.2.2.2.2]
    · rw [map_lookup_eq_head, hbid, hbuckets, getD_set_self s.buckets _ _ _ hb,
        find_slot_append_absent Prod.fst key _ _ hfs, hlknone]
      simp [find_slot]
    · intro k2 hk2
      rw [map_lookup_eq_head, map_lookup_eq_head, hbid, hbuckets]
      by_cases hbb : omp_hash_map.bucket_id hash s k2 = omp_hash_map.bucket_id hash s key
      · rw [hbb, getD_set_self s.buckets _ _ _ hb]
        have hnw : (find_slot Prod.fst k2 [(key, fresh_val)]).head? =
            (find_slot Prod.fst k2 ([] : List (K × V))).head? := by
          simp only [find_slot]
          rw [if_neg (show ¬ (key, fresh_val).1 = k2 from fun e => hk2 e.symm)]
        have := find_slot_head_append Prod.fst k2
          (s.buckets.getD (omp_hash_map.bucket_id hash s key) []) [(key, fresh_val)] []
          hnw
        rw [List.append_nil] at this
        rw [this]
      · rw [getD_set_other s.buckets _ _ _ _ (fun e => hbb e.symm)]
    · rw [hnkeys, hlknone]
      rfl
  | cons node rest =>
    rw [hfs, hcons] at hbuckets hnkeys
    dsimp only at hbuckets hnkeys
    have hkey : node.1 = key := find_slot_head Prod.fst key _ node rest hfs
    have hdecomp : before_slot Prod.fst key
        (s.buckets.getD (omp_hash_map.bucket_id hash s key) []) ++ (node :: rest) =
        s.buckets.getD (omp_hash_map.bucket_id hash s key) [] := by
      have := before_append_find Prod.fst key
        (s.buckets.getD (omp_hash_map.bucket_id hash s key) [])
      rw [hfs] at this
      exact this
    have hlksome : omp_hash_map.lookup hash s key = some node.2 := by
      unfold omp_hash_map.lookup
      rw [hfs]
    have hbnotkey : key ∉ (before_slot Prod.fst key
        (s.buckets.getD (omp_hash_map.bucket_id hash s key) [])).map Prod.fst :=
      before_slot_keys Prod.fst key _
    have hfsbefore : find_slot Prod.fst key (before_slot Prod.fst key
        (s.buckets.getD (omp_hash_map.bucket_id hash s key) [])) = [] :=
      (find_slot_eq_nil Prod.fst key _).2 hbnotkey
    have hkeysold : (s.buckets.getD (omp_hash_map.bucket_id hash s key) []).map Prod.fst =
        (before_slot Prod.fst key
          (s.buckets.getD (omp_hash_map.bucket_id hash s key) [])).map Prod.fst ++
          (node.1 :: rest.map Prod.fst) := by
      conv_lhs => rw [← hdecomp]
      simp
    have hkeysnew : (before_slot Prod.fst key
        (s.buckets.getD (omp_hash_map.bucket_id hash s key) []) ++
          ((node.1, mod_val node.2) :: rest)).map Prod.fst =
        (s.buckets.getD (omp_hash_map.bucket_id hash s key) []).map Prod.fst := by
      rw [hkeysold]
      simp
    have hlennew : (before_slot Prod.fst key
        (s.buckets.getD (omp_hash_map.bucket_id hash s key) []) ++
          ((node.1, mod_val node.2) :: rest)).length =
        (s.buckets.getD (omp_hash_map.bucket_id hash s key) []).length := by
      conv_rhs => rw [← hdecomp]
      simp
    refine ⟨⟨?_, ?_, ?_, ?_, ?_⟩, hnb, ?_, ?_, ?_⟩
    · rw [hnb, hlensame]
      exact hwf.1
    · rw [hnb]
      exact hwf.2.1
    · intro i hi e he
      rw [hlensame] at hi
      rw [hbuckets] at he
      rw [hnb]
      by_cases hib : i = omp_hash_map.bucket_id hash s key
      · subst hib
        rw [getD_set_self s.buckets _ _ _ hb] at he
        rcases List.mem_append.1 he with hmem | hmem
        · have : e ∈ s.buckets.getD (omp_hash_map.bucket_id hash s key) [] := by
            rw [← hdecomp]
            exact List.mem_append_left _ hmem
          exact hwf.2.2.1 _ hi e this
        · rcases List.mem_cons.1 hmem with he2 | hmem2
          · have hnodemem : node ∈ s.buckets.getD (omp_hash_map.bucket_id hash s key) [] := by
              rw [← hdecomp]
              exact List.mem_append_right _ (List.mem_cons_self node rest)
            have := hwf.2.2.1 _ hb node hnodemem
            rw [he2]
            exact this
          · have : e ∈ s.buckets.getD (omp_hash_map.bucket_id hash s key) [] := by
              rw [← hdecomp]
              exact List.mem_append_right _ (List.mem_cons_of_mem node hmem2)
            exact hwf.2.2.1 _ hi e this
      · rw [getD_set_other s.buckets _ i _ _ (fun e2 => hib e2.symm)] at he
        exact hwf.2.2.1 i hi e he
    · show ((omp_hash_map.entries (omp_hash_map.hash_node_apply hash s key hd)).map
        Prod.fst).Nodup
      unfold omp_hash_map.entries
      rw [hbuckets, flatten_set_decomp s.buckets _ hb _]
      have hc := hwf.2.2.2.1
      unfold omp_hash_map.entries at hc
      rw [flatten_decomp s.buckets _ hb] at hc
      simp only [List.map_append, List.map_cons] at hc ⊢
      rw [hkeysold] at hc
      simpa using hc
    · rw [hnkeys]
      show s.n_keys = _
      unfold omp_hash_map.entries
      rw [hbuckets, flatten_set_decomp s.buckets _ hb _]
      have hc := hwf.2.2.2.2
      unfold omp_hash_map.entries at hc
      rw [flatten_decomp s.buckets _ hb] at hc
      simp only [List.length_append, List.length_cons] at hc ⊢
      have hlen2 : (s.buckets.getD (omp_hash_map.bucket_id hash s key) []).length =
          (before_slot Prod.fst key
            (s.buckets.getD (omp_hash_map.bucket_id hash s key) [])).length +
            rest.length + 1 := by
        conv_lhs => rw [← hdecomp]
        simp only [List.length_append, List.length_cons]
        omega
      omega
    · rw [map_lookup_eq_head, hbid, hbuckets, getD_set_self s.buckets _ _ _ hb,
        find_slot_append_absent Prod.fst key _ _ hfsbefore, hlksome]
      simp only [find_slot, hkey, if_pos]
      rfl
    · intro k2 hk2
      rw [map_lookup_eq_head, map_lookup_eq_head, hbid, hbuckets]
      by_cases hbb : omp_hash_map.bucket_id hash s k2 = omp_hash_map.bucket_id hash s key
      · rw [hbb, getD_set_self s.buckets _ _ _ hb]
        have htails : (find_slot Prod.fst k2 ((node.1, mod_val node.2) :: rest)).head? =
            (find_slot Prod.fst k2 (node :: rest)).head? := by
          simp only [find_slot]
          rw [if_neg (show ¬ ((node.1, mod_val node.2) : K × V).1 = k2 from by
            simp only [hkey]
            exact fun e => hk2 e.symm)]
          rw [if_neg (show ¬ node.1 = k2 from by
            rw [hkey]
            exact fun e => hk2 e.symm)]
        have := find_slot_head_append Prod.fst k2
          (before_slot Prod.fst key
            (s.buckets.getD (omp_hash_map.bucket_id hash s key) []))
          ((node.1, mod_val node.2) :: rest) (node :: rest) htails
        rw [hdecomp] at this
        rw [this]
      · rw [getD_set_other s.buckets _ _ _ _ (fun e => hbb e.symm)]
    · rw [hnkeys, hlksome]
      rfl

end MapInsertPhase

section MapUnsetLemmas

variable {K V : Type} [DecidableEq K] [Inhabited V] (hash : K → Nat)

lemma map_unset_spec (s : omp_hash_map.State K V) (hwf : omp_hash_map.wf hash s) (key : K) :
    omp_hash_map.wf hash (omp_hash_map.unset hash s key) ∧
    (omp_hash_map.unset hash s key).n_buckets = s.n_buckets ∧
    omp_hash_map.lookup hash (omp_hash_map.unset hash s key) key = none ∧
    (∀ k2, k2 ≠ key → omp_hash_map.lookup hash (omp_hash_map.unset hash s key) k2 =
      omp_hash_map.lookup hash s k2) ∧
    (omp_hash_map.lookup hash s key = none → omp_hash_map.unset hash s key = s) ∧
    (∀ v, omp_hash_map.lookup hash s key = some v →
      (omp_hash_map.unset hash s key).n_keys + 1 = s.n_keys ∧
      ∃ c1 c2, key ∉ c1.map Prod.fst ∧
        s.buckets.getD (omp_hash_map.bucket_id hash s key) [] = c1 ++ (key, v) :: c2 ∧
        (omp_hash_map.unset hash s key).buckets =
          s.buckets.set (omp_hash_map.bucket_id hash s key) (c1 ++ c2)) := by
  have hb := map_bucket_id_lt hash s hwf key
  have happ := apply_rec_eq Prod.fst key
    (fun slot n_keys =>
      match slot with
      | [] => ([], n_keys)
      | _ :: rest => (rest, n_keys - 1))
    (s.buckets.getD (omp_hash_map.bucket_id hash s key) []) s.n_keys
  have hbuckets : (omp_hash_map.unset hash s key).buckets =
      s.buckets.set (omp_hash_map.bucket_id hash s key)
        (before_slot Prod.fst key
            (s.buckets.getD (omp_hash_map.bucket_id hash s key) []) ++
          ((fun (slot : List (K × V)) (n_keys : Nat) =>
            match slot with
            | [] => (([] : List (K × V)), n_keys)
            | _ :: rest => (rest, n_keys - 1))
            (find_slot Prod.fst key
              (s.buckets.getD (omp_hash_map.bucket_id hash s key) []))
            s.n_keys).1) := by
    show s.buckets.set (omp_hash_map.bucket_id hash s key)
        (hash_node_apply_recursive Prod.fst key _
          (s.buckets.getD (omp_hash_map.bucket_id hash s key) []) s.n_keys).1 = _
    rw [happ]
  have hnkeys : (omp_hash_map.unset hash s key).n_keys =
      ((fun (slot : List (K × V)) (n_keys : Nat) =>
        match slot with
        | [] => (([] : List (K × V)), n_keys)
        | _ :: rest => (rest, n_keys - 1))
        (find_slot Prod.fst key
          (s.buckets.getD (omp_hash_map.bucket_id hash s key) []))
        s.n_keys).2 := by
    show (hash_node_apply_recursive Prod.fst key _
        (s.buckets.getD (omp_hash_map.bucket_id hash s key) []) s.n_keys).2 = _
    rw [happ]
  have hnb : (omp_hash_map.unset hash s key).n_buckets = s.n_buckets := rfl
  have hbid : ∀ k2 : K,
      omp_hash_map.bucket_id hash (omp_hash_map.unset hash s key) k2 =
        omp_hash_map.bucket_id hash s k2 := fun _ => rfl
  have hlensame : (omp_hash_map.unset hash s key).buckets.length = s.buckets.length := by
    rw [hbuckets, List.length_set]
  cases hfs : find_slot Prod.fst key
      (s.buckets.getD (omp_hash_map.bucket_id hash s key) []) with
  | nil =>
    rw [hfs] at hbuckets hnkeys
    dsimp only at hbuckets hnkeys
    have hbefore : before_slot Prod.fst key
        (s.buckets.getD (omp_hash_map.bucket_id hash s key) []) =
        s.buckets.getD (omp_hash_map.bucket_id hash s key) [] := by
      have := before_append_find Prod.fst key
        (s.buckets.getD (omp_hash_map.bucket_id hash s key) [])
      rw [hfs, List.append_nil] at this
      exact this
    have hlknone : omp_hash_map.lookup hash s key = none := by
      unfold omp_hash_map.lookup
      rw [hfs]
    have hid : omp_hash_map.unset hash s key = s := by
      have h1 : (omp_hash_map.unset hash s key).buckets = s.buckets := by
        rw [hbuckets, List.append_nil, hbefore]
        exact set_getD_self s.buckets _ [] hb
      have e : omp_hash_map.unset hash s key =
          ⟨(omp_hash_map.unset hash s key).n_keys,
           (omp_hash_map.unset hash s key).n_buckets,
           (omp_hash_map.unset hash s key).buckets⟩ := rfl
      rw [e, h1, hnkeys, hnb]
    refine ⟨?_, hnb, ?_, ?_, fun _ => hid, ?_⟩
    · rw [hid]
      exact hwf
    · rw [hid]
      exact hlknone
    · intro k2 _
      rw [hid]
    · intro v hv
      rw [hlknone] at hv
      exact absurd hv (by simp)
  | cons node rest =>
    rw [hfs] at hbuckets hnkeys
    dsimp only at hbuckets hnkeys
    have hkey : node.1 = key := find_slot_head Prod.fst key _ node rest hfs
    have hdecomp : before_slot Prod.fst key
        (s.buckets.getD (omp_hash_map.bucket_id hash s key) []) ++ (node :: rest) =
        s.buckets.getD (omp_hash_map.bucket_id hash s key) [] := by
      have := before_append_find Prod.fst key
        (s.buckets.getD (omp_hash_map.bucket_id hash s key) [])
      rw [hfs] at this
      exact this
    have hlksome : omp_hash_map.lookup hash s key = some node.2 := by
      unfold omp_hash_map.lookup
      rw [hfs]
    have hbnotkey : key ∉ (before_slot Prod.fst key
        (s.buckets.getD (omp_hash_map.bucket_id hash s key) [])).map Prod.fst :=
      before_slot_keys Prod.fst key _
    have hfsbefore : find_slot Prod.fst key (before_slot Prod.fst key
        (s.buckets.getD (omp_hash_map.bucket_id hash s key) [])) = [] :=
      (find_slot_eq_nil Prod.fst key _).2 hbnotkey
    have hkeysold : (s.buckets.getD (omp_hash_map.bucket_id hash s key) []).map Prod.fst =
        (before_slot Prod.fst key
          (s.buckets.getD (omp_hash_map.bucket_id hash s key) [])).map Prod.fst ++
          (node.1 :: rest.map Prod.fst) := by
      conv_lhs => rw [← hdecomp]
      simp
    have hchainnodup : ((s.buckets.getD
        (omp_hash_map.bucket_id hash s key) []).map Prod.fst).Nodup :=
      map_chain_keys_nodup hash s hwf _ hb
    have hkeynotrest : key ∉ rest.map Prod.fst := by
      rw [hkeysold, hkey] at hchainnodup
      have := (List.nodup_append.1 hchainnodup).2.1
      exact (List.nodup_cons.1 this).1
    have hsub : ((before_slot Prod.fst key
        (s.buckets.getD (omp_hash_map.bucket_id hash s key) [])) ++ rest).Sublist
        (s.buckets.getD (omp_hash_map.bucket_id hash s key) []) := by
      have h0 := List.Sublist.append_left (List.sublist_cons_self node rest)
        (before_slot Prod.fst key
          (s.buckets.getD (omp_hash_map.bucket_id hash s key) []))
      rw [hdecomp] at h0
      exact h0
    refine ⟨⟨?_, ?_, ?_, ?_, ?_⟩, hnb, ?_, ?_, ?_, ?_⟩
    · rw [hnb, hlensame]
      exact hwf.1
    · rw [hnb]
      exact hwf.2.1
    · intro i hi e he
      rw [hlensame] at hi
      rw [hbuckets] at he
      rw [hnb]
      by_cases hib : i = omp_hash_map.bucket_id hash s key
      · subst hib
        rw [getD_set_self s.buckets _ _ _ hb] at he
        exact hwf.2.2.1 _ hi e (hsub.mem he)
      · rw [getD_set_other s.buckets _ i _ _ (fun e2 => hib e2.symm)] at he
        exact hwf.2.2.1 i hi e he
    · show ((omp_hash_map.entries (omp_hash_map.unset hash s key)).map Prod.fst).Nodup
      unfold omp_hash_map.entries
      rw [hbuckets, flatten_set_decomp s.buckets _ hb _]
      have hc := hwf.2.2.2.1
      unfold omp_hash_map.entries at hc
      rw [flatten_decomp s.buckets _ hb] at hc
      refine List.Nodup.sublist (List.Sublist.map Prod.fst ?_) hc
      exact List.Sublist.append
        (List.Sublist.refl _)
        (List.Sublist.append hsub (List.Sublist.refl _))
    · rw [hnkeys]
      show s.n_keys - 1 = _
      unfold omp_hash_map.entries
      rw [hbuckets, flatten_set_decomp s.buckets _ hb _]
      have hc := hwf.2.2.2.2
      unfold omp_hash_map.entries at hc
      rw [flatten_decomp s.buckets _ hb] at hc
      simp only [List.length_append, List.length_cons] at hc ⊢
      have hlen2 : (s.buckets.getD (omp_hash_map.bucket_id hash s key) []).length =
          (before_slot Prod.fst key
            (s.buckets.getD (omp_hash_map.bucket_id hash s key) [])).length +
            rest.length + 1 := by
        conv_lhs => rw [← hdecomp]
        simp only [List.length_append, List.length_cons]
        omega
      omega
    · rw [map_lookup_eq_head, hbid, hbuckets, getD_set_self s.buckets _ _ _ hb,
        find_slot_append_absent Prod.fst key _ _ hfsbefore,
        (find_slot_eq_nil Prod.fst key rest).2 hkeynotrest]
      rfl
    · intro k2 hk2
      rw [map_lookup_eq_head, map_lookup_eq_head, hbid, hbuckets]
      by_cases hbb : omp_hash_map.bucket_id hash s k2 = omp_hash_map.bucket_id hash s key
      · rw [hbb, getD_set_self s.buckets _ _ _ hb]
        have htails : (find_slot Prod.fst k2 rest).head? =
            (find_slot Prod.fst k2 (node :: rest)).head? := by
          simp only [find_slot]
          rw [if_neg (show ¬ node.1 = k2 from by
            rw [hkey]
            exact fun e => hk2 e.symm)]
        have := find_slot_head_append Prod.fst k2
          (before_slot Prod.fst key
            (s.buckets.getD (omp_hash_map.bucket_id hash s key) []))
          rest (node :: rest) htails
        rw [hdecomp] at this
        rw [this]
      · rw [getD_set_other s.buckets _ _ _ _ (fun e => hbb e.symm)]
    · intro hnone
      rw [hlksome] at hnone
      exact absurd hnone (by simp)
    · intro v hv
      rw [hlksome] at hv
      have hveq : node.2 = v := by
        simpa using hv
      constructor
      · rw [hnkeys]
        have hc := hwf.2.2.2.2
        unfold omp_hash_map.entries at hc
        rw [flatten_decomp s.buckets _ hb] at hc
        have hlen2 : (s.buckets.getD (omp_hash_map.bucket_id hash s key) []).length =
            (before_slot Prod.fst key
              (s.buckets.getD (omp_hash_map.bucket_id hash s key) [])).length +
              rest.length + 1 := by
          conv_lhs => rw [← hdecomp]
          simp only [List.length_append, List.length_cons]
          omega
        simp only [List.length_append] at hc
        omega
      · refine ⟨before_slot Prod.fst key
          (s.buckets.getD (omp_hash_map.bucket_id hash s key) []), rest,
          hbnotkey, ?_, hbuckets⟩
        have : ((key, v) : K × V) = node := by
          rw [← hkey, ← hveq]
        rw [this, hdecomp]

end MapUnsetLemmas

section MapRehashLemmas

variable {K V : Type} [DecidableEq K] [Inhabited V] (hash : K → Nat)

lemma getD_replicate_nil {β : Type} (n : Nat) :
    ∀ i : Nat, (List.replicate n ([] : List β)).getD i [] = [] := by
  induction n with
  | zero => intro i; simp
  | succ n2 ih =>
    intro i
    cases i with
    | zero => simp [List.replicate]
    | succ j => simpa [List.replicate] using ih j

lemma flatten_replicate_nil {β : Type} (n : Nat) :
    (List.replicate n ([] : List β)).flatten = [] := by
  induction n with
  | zero => simp
  | succ n2 ih => simpa [List.replicate] using ih

lemma map_rehash_insert_spec (n2 : Nat) (hn : 0 < n2) (arr : List (List (K × V)))
    (node : K × V)
    (hlen : arr.length = n2)
    (hplace : ∀ i < n2, ∀ e ∈ arr.getD i [], hash e.1 % n2 = i)
    (hfresh : node.1 ∉ arr.flatten.map Prod.fst) :
    (omp_hash_map.rehash_insert_node hash n2 arr node).length = n2 ∧
    (∀ i < n2, ∀ e ∈ (omp_hash_map.rehash_insert_node hash n2 arr node).getD i [],
      hash e.1 % n2 = i) ∧
    (omp_hash_map.rehash_insert_node hash n2 arr node).flatten.Perm
      (node :: arr.flatten) := by
  have hblt : hash node.1 % n2 < n2 := Nat.mod_lt _ hn
  have hblen : hash node.1 % n2 < arr.length := by omega
  have hnotchain : node.1 ∉ (arr.getD (hash node.1 % n2) []).map Prod.fst := by
    intro hmem
    apply hfresh
    obtain ⟨e, he, hek⟩ := List.mem_map.1 hmem
    rw [← hek]
    exact List.mem_map_of_mem Prod.fst (mem_flatten_of_bucket arr _ hblen e he)
  have hfs : find_slot Prod.fst node.1 (arr.getD (hash node.1 % n2) []) = [] :=
    (find_slot_eq_nil Prod.fst node.1 _).2 hnotchain
  have hbefore : before_slot Prod.fst node.1 (arr.getD (hash node.1 % n2) []) =
      arr.getD (hash node.1 % n2) [] := by
    have := before_append_find Prod.fst node.1 (arr.getD (hash node.1 % n2) [])
    rw [hfs, List.append_nil] at this
    exact this
  have happ := apply_rec_eq Prod.fst node.1
    (fun (_ : List (K × V)) (n : Nat) => ([node], n)) (arr.getD (hash node.1 % n2) []) 0
  have hform : omp_hash_map.rehash_insert_node hash n2 arr node =
      arr.set (hash node.1 % n2) (arr.getD (hash node.1 % n2) [] ++ [node]) := by
    show arr.set (hash node.1 % n2)
      (hash_node_apply_recursive Prod.fst node.1 _ (arr.getD (hash node.1 % n2) []) 0).1 = _
    rw [happ]
    dsimp only
    rw [hbefore]
  refine ⟨?_, ?_, ?_⟩
  · rw [hform, List.length_set, hlen]
  · intro i hi e he
    rw [hform] at he
    by_cases hib : i = hash node.1 % n2
    · subst hib
      rw [getD_set_self arr _ _ _ hblen] at he
      rcases List.mem_append.1 he with hmem | hmem
      · exact hplace _ hi e hmem
      · have : e = node := by simpa using hmem
        rw [this]
    · rw [getD_set_other arr _ i _ _ (fun e2 => hib e2.symm)] at he
      exact hplace i hi e he
  · rw [hform, flatten_set_decomp arr _ hblen _]
    have e1 : (arr.take (hash node.1 % n2)).flatten ++
        ((arr.getD (hash node.1 % n2) [] ++ [node]) ++
          (arr.drop (hash node.1 % n2 + 1)).flatten) =
        ((arr.take (hash node.1 % n2)).flatten ++ arr.getD (hash node.1 % n2) []) ++
          (node :: (arr.drop (hash node.1 % n2 + 1)).flatten) := by
      simp
    have e2 : arr.flatten =
        ((arr.take (hash node.1 % n2)).flatten ++ arr.getD (hash node.1 % n2) []) ++
          (arr.drop (hash node.1 % n2 + 1)).flatten := by
      rw [flatten_decomp arr _ hblen]
      simp
    rw [e1, e2]
    exact List.perm_middle

lemma map_rehash_chain_spec (n2 : Nat) (hn : 0 < n2) :
    ∀ (c : List (K × V)) (arr : List (List (K × V))),
      arr.length = n2 →
      (∀ i < n2, ∀ e ∈ arr.getD i [], hash e.1 % n2 = i) →
      ((arr.flatten ++ c).map Prod.fst).Nodup →
      (omp_hash_map.rehash_chain hash n2 arr c).length = n2 ∧
      (∀ i < n2, ∀ e ∈ (omp_hash_map.rehash_chain hash n2 arr c).getD i [],
        hash e.1 % n2 = i) ∧
      (omp_hash_map.rehash_chain hash n2 arr c).flatten.Perm (arr.flatten ++ c) := by
  intro c
  induction c with
  | nil =>
    intro arr h1 h2 _
    refine ⟨h1, h2, ?_⟩
    show arr.flatten.Perm (arr.flatten ++ [])
    rw [List.append_nil]
  | cons node rest ih =>
    intro arr h1 h2 h3
    have hsubrest : ((arr.flatten ++ rest).map Prod.fst).Nodup := by
      refine List.Nodup.sublist (List.Sublist.map Prod.fst ?_) h3
      exact List.Sublist.append_left (List.sublist_cons_self node rest) _
    obtain ⟨ih1, ih2, ih3⟩ := ih arr h1 h2 hsubrest
    have h3m : ((arr.flatten.map Prod.fst) ++
        (node.1 :: rest.map Prod.fst)).Nodup := by
      simpa using h3
    have hnotA : node.1 ∉ arr.flatten.map Prod.fst := by
      intro hmem
      have hdisj := (List.nodup_append.1 h3m).2.2
      exact hdisj hmem (List.mem_cons_self _ _)
    have hnotR : node.1 ∉ rest.map Prod.fst := by
      have := (List.nodup_append.1 h3m).2.1
      exact (List.nodup_cons.1 this).1
    have hfresh : node.1 ∉
        (omp_hash_map.rehash_chain hash n2 arr rest).flatten.map Prod.fst := by
      intro hmem
      have := (ih3.map Prod.fst).mem_iff.1 hmem
      simp only [List.map_append] at this
      rcases List.mem_append.1 this with hmem2 | hmem2
      · exact hnotA hmem2
      · exact hnotR hmem2
    obtain ⟨j1, j2, j3⟩ := map_rehash_insert_spec hash n2 hn
      (omp_hash_map.rehash_chain hash n2 arr rest) node ih1 ih2 hfresh
    refine ⟨j1, j2, ?_⟩
    show (omp_hash_map.rehash_insert_node hash n2
      (omp_hash_map.rehash_chain hash n2 arr rest) node).flatten.Perm
      (arr.flatten ++ node :: rest)
    exact (j3.trans (ih3.cons node)).trans List.perm_middle.symm

lemma map_rehash_fold_spec (n2 : Nat) (hn : 0 < n2) :
    ∀ (chains : List (List (K × V))) (arr : List (List (K × V))),
      arr.length = n2 →
      (∀ i < n2, ∀ e ∈ arr.getD i [], hash e.1 % n2 = i) →
      ((arr.flatten ++ chains.flatten).map Prod.fst).Nodup →
      (chains.foldl (omp_hash_map.rehash_chain hash n2) arr).length = n2 ∧
      (∀ i < n2, ∀ e ∈ (chains.foldl (omp_hash_map.rehash_chain hash n2) arr).getD i [],
        hash e.1 % n2 = i) ∧
      (chains.foldl (omp_hash_map.rehash_chain hash n2) arr).flatten.Perm
        (arr.flatten ++ chains.flatten) := by
  intro chains
  induction chains with
  | nil =>
    intro arr h1 h2 _
    refine ⟨h1, h2, ?_⟩
    show arr.flatten.Perm (arr.flatten ++ [].flatten)
    rw [List.flatten_nil, List.append_nil]
  | cons c cs ih =>
    intro arr h1 h2 h3
    have hsubc : ((arr.flatten ++ c).map Prod.fst).Nodup := by
      refine List.Nodup.sublist (List.Sublist.map Prod.fst ?_) h3
      have : (arr.flatten ++ c).Sublist (arr.flatten ++ (c ++ cs.flatten)) :=
        List.Sublist.append_left (List.sublist_append_left c cs.flatten) _
      simpa using this
    obtain ⟨j1, j2, j3⟩ := map_rehash_chain_spec hash n2 hn c arr h1 h2 hsubc
    have hperm0 : ((omp_hash_map.rehash_chain hash n2 arr c).flatten ++
        cs.flatten).Perm (arr.flatten ++ (c ++ cs.flatten)) := by
      have := j3.append_right cs.flatten
      simpa using this
    have hnodup2 : (((omp_hash_map.rehash_chain hash n2 arr c).flatten ++
        cs.flatten).map Prod.fst).Nodup := by
      refine ((hperm0.map Prod.fst).symm).nodup ?_
      simpa using h3
    obtain ⟨k1, k2, k3⟩ := ih (omp_hash_map.rehash_chain hash n2 arr c) j1 j2 hnodup2
    refine ⟨k1, k2, ?_⟩
    show ((c :: cs).foldl (omp_hash_map.rehash_chain hash n2) arr).flatten.Perm _
    have : (c :: cs).foldl (omp_hash_map.rehash_chain hash n2) arr =
        cs.foldl (omp_hash_map.rehash_chain hash n2)
          (omp_hash_map.rehash_chain hash n2 arr c) := rfl
    rw [this]
    have := k3.trans hperm0
    simpa using this

lemma map_rehash_spec (s : omp_hash_map.State K V) (hwf : omp_hash_map.wf hash s)
    (n2 : Nat) :
    omp_hash_map.wf hash (omp_hash_map.rehash hash s n2) ∧
    (∀ k, omp_hash_map.lookup hash (omp_hash_map.rehash hash s n2) k =
      omp_hash_map.lookup hash s k) ∧
    (omp_hash_map.rehash hash s n2).n_keys = s.n_keys := by
  by_cases hle : n2 ≤ s.n_buckets
  · rw [map_rehash_le hash s n2 hle]
    exact ⟨hwf, fun _ => rfl, rfl⟩
  · have hn : 0 < n2 := by
      have := hwf.2.1
      omega
    have hre : omp_hash_map.rehash hash s n2 =
        { s with
          buckets := s.buckets.foldl (omp_hash_map.rehash_chain hash n2)
            (List.replicate n2 []),
          n_buckets := n2 } := by
      unfold omp_hash_map.rehash
      rw [if_neg hle]
    have h1 : (List.replicate n2 ([] : List (K × V))).length = n2 := by simp
    have h2 : ∀ i < n2, ∀ e ∈ (List.replicate n2 ([] : List (K × V))).getD i [],
        hash e.1 % n2 = i := by
      intro i _ e he
      rw [getD_replicate_nil] at he
      exact absurd he (List.not_mem_nil e)
    have h3 : (((List.replicate n2 ([] : List (K × V))).flatten ++
        s.buckets.flatten).map Prod.fst).Nodup := by
      rw [flatten_replicate_nil, List.nil_append]
      exact hwf.2.2.2.1
    obtain ⟨f1, f2, f3⟩ := map_rehash_fold_spec hash n2 hn s.buckets
      (List.replicate n2 []) h1 h2 h3
    have fperm : (s.buckets.foldl (omp_hash_map.rehash_chain hash n2)
        (List.replicate n2 [])).flatten.Perm s.buckets.flatten := by
      have := f3
      rw [flatten_replicate_nil] at this
      simpa using this
    have hwf2 : omp_hash_map.wf hash (omp_hash_map.rehash hash s n2) := by
      rw [hre]
      refine ⟨?_, ?_, ?_, ?_, ?_⟩
      · show n2 = _
        rw [f1]
      · exact hn
      · show ∀ i < (s.buckets.foldl (omp_hash_map.rehash_chain hash n2)
          (List.replicate n2 [])).length, _
        rw [f1]
        intro i hi e he
        exact f2 i hi e he
      · show ((s.buckets.foldl (omp_hash_map.rehash_chain hash n2)
          (List.replicate n2 [])).flatten.map Prod.fst).Nodup
        exact ((fperm.map Prod.fst).symm).nodup hwf.2.2.2.1
      · show s.n_keys = (omp_hash_map.entries _).length
        unfold omp_hash_map.entries
        dsimp only
        rw [fperm.length_eq]
        exact hwf.2.2.2.2
    refine ⟨hwf2, ?_, ?_⟩
    · intro k
      have hmemiff : ∀ e : K × V, e ∈ omp_hash_map.entries (omp_hash_map.rehash hash s n2) ↔
          e ∈ omp_hash_map.entries s := by
        intro e
        unfold omp_hash_map.entries
        rw [hre]
        exact fperm.mem_iff
      cases hl : omp_hash_map.lookup hash s k with
      | some v =>
        exact (map_lookup_some_iff hash _ hwf2 k v).2
          ((hmemiff (k, v)).2 ((map_lookup_some_iff hash s hwf k v).1 hl))
      | none =>
        refine (map_lookup_none_iff hash _ hwf2 k).2 ?_
        intro hmem
        obtain ⟨e, he, hek⟩ := List.mem_map.1 hmem
        have := (hmemiff e).1 he
        have := (map_lookup_none_iff hash s hwf k).1 hl
        exact this (hek ▸ List.mem_map_of_mem Prod.fst ((hmemiff e).1 he))
    · rw [hre]

lemma map_reserve_run_spec (s : omp_hash_map.State K V) (hwf : omp_hash_map.wf hash s)
    (m : Nat) :
    omp_hash_map.wf hash (omp_hash_map.reserve_run hash s m) ∧
    (∀ k, omp_hash_map.lookup hash (omp_hash_map.reserve_run hash s m) k =
      omp_hash_map.lookup hash s k) ∧
    (omp_hash_map.reserve_run hash s m).n_keys = s.n_keys := by
  cases hp : omp_hash_map.get_n_rehashing_buckets m with
  | none =>
    rw [map_reserve_run_none hash s m hp]
    exact ⟨hwf, fun _ => rfl, rfl⟩
  | some n2 =>
    rw [map_reserve_run_some hash s m n2 hp]
    exact map_rehash_spec hash s hwf n2

end MapRehashLemmas

section MapOpLemmas

variable {K V : Type} [DecidableEq K] [Inhabited V] (hash : K → Nat)

lemma map_grow_spec (s1 : omp_hash_map.State K V) (hwf : omp_hash_map.wf hash s1) :
    omp_hash_map.wf hash (if s1.n_buckets ≤ s1.n_keys then
      omp_hash_map.reserve_run hash s1 s1.n_keys else s1) ∧
    (∀ k, omp_hash_map.lookup hash (if s1.n_buckets ≤ s1.n_keys then
      omp_hash_map.reserve_run hash s1 s1.n_keys else s1) k =
      omp_hash_map.lookup hash s1 k) ∧
    (if s1.n_buckets ≤ s1.n_keys then
      omp_hash_map.reserve_run hash s1 s1.n_keys else s1).n_keys = s1.n_keys := by
  split
  · exact map_reserve_run_spec hash s1 hwf s1.n_keys
  · exact ⟨hwf, fun _ => rfl, rfl⟩

lemma map_set_spec (s : omp_hash_map.State K V) (hwf : omp_hash_map.wf hash s)
    (key : K) (value : V) :
    omp_hash_map.wf hash (omp_hash_map.set hash s key value) ∧
    omp_hash_map.lookup hash (omp_hash_map.set hash s key value) key = some value ∧
    (∀ k2, k2 ≠ key → omp_hash_map.lookup hash (omp_hash_map.set hash s key value) k2 =
      omp_hash_map.lookup hash s k2) ∧
    (omp_hash_map.set hash s key value).n_keys =
      (omp_hash_map.lookup hash s key).elim (s.n_keys + 1) (fun _ => s.n_keys) := by
  obtain ⟨p1, p2, p3, p4, p5⟩ := map_insert_phase hash s
    (omp_hash_map.hash_node_apply hash s key (fun slot n_keys =>
      match slot with
      | [] => ([(key, value)], n_keys + 1)
      | node :: rest => ((node.1, value) :: rest, n_keys)))
    hwf key value (fun _ => value)
    (fun slot n_keys =>
      match slot with
      | [] => ([(key, value)], n_keys + 1)
      | node :: rest => ((node.1, value) :: rest, n_keys))
    (fun _ => rfl) (fun _ _ _ => rfl) rfl
  have heq : omp_hash_map.set hash s key value =
      (if (omp_hash_map.hash_node_apply hash s key (fun slot n_keys =>
        match slot with
        | [] => ([(key, value)], n_keys + 1)
        | node :: rest => (((node.1, value)) :: rest, n_keys))).n_buckets ≤
        (omp_hash_map.hash_node_apply hash s key (fun slot n_keys =>
        match slot with
        | [] => ([(key, value)], n_keys + 1)
        | node :: rest => (((node.1, value)) :: rest, n_keys))).n_keys then
        omp_hash_map.reserve_run hash
          (omp_hash_map.hash_node_apply hash s key (fun slot n_keys =>
        match slot with
        | [] => ([(key, value)], n_keys + 1)
        | node :: rest => (((node.1, value)) :: rest, n_keys)))
          (omp_hash_map.hash_node_apply hash s key (fun slot n_keys =>
        match slot with
        | [] => ([(key, value)], n_keys + 1)
        | node :: rest => (((node.1, value)) :: rest, n_keys))).n_keys
      else
        (omp_hash_map.hash_node_apply hash s key (fun slot n_keys =>
        match slot with
        | [] => ([(key, value)], n_keys + 1)
        | node :: rest => (((node.1, value)) :: rest, n_keys)))) := rfl
  have hgrow := map_grow_spec hash _ p1
  refine ⟨?_, ?_, ?_, ?_⟩
  · rw [heq]
    exact hgrow.1
  · rw [heq, hgrow.2.1 key, p3]
    cases omp_hash_map.lookup hash s key with
    | none => rfl
    | some v0 => rfl
  · intro k2 hk2
    rw [heq, hgrow.2.1 k2, p4 k2 hk2]
  · rw [heq, hgrow.2.2, p5]

lemma map_set_f_spec (s : omp_hash_map.State K V) (hwf : omp_hash_map.wf hash s)
    (key : K) (f : V → V) :
    omp_hash_map.wf hash (omp_hash_map.set_f hash s key f) ∧
    omp_hash_map.lookup hash (omp_hash_map.set_f hash s key f) key =
      some ((omp_hash_map.lookup hash s key).elim (f default) f) ∧
    (∀ k2, k2 ≠ key → omp_hash_map.lookup hash (omp_hash_map.set_f hash s key f) k2 =
      omp_hash_map.lookup hash s k2) ∧
    (omp_hash_map.set_f hash s key f).n_keys =
      (omp_hash_map.lookup hash s key).elim (s.n_keys + 1) (fun _ => s.n_keys) := by
  obtain ⟨p1, p2, p3, p4, p5⟩ := map_insert_phase hash s
    (omp_hash_map.hash_node_apply hash s key (fun slot n_keys =>
      match slot with
      | [] => ([(key, f default)], n_keys + 1)
      | node :: rest => ((node.1, f node.2) :: rest, n_keys)))
    hwf key (f default) f
    (fun slot n_keys =>
      match slot with
      | [] => ([(key, f default)], n_keys + 1)
      | node :: rest => ((node.1, f node.2) :: rest, n_keys))
    (fun _ => rfl) (fun _ _ _ => rfl) rfl
  have heq : omp_hash_map.set_f hash s key f =
      (if (omp_hash_map.hash_node_apply hash s key (fun slot n_keys =>
        match slot with
        | [] => ([(key, f default)], n_keys + 1)
        | node :: rest => (((node.1, f node.2)) :: rest, n_keys))).n_buckets ≤
        (omp_hash_map.hash_node_apply hash s key (fun slot n_keys =>
        match slot with
        | [] => ([(key, f default)], n_keys + 1)
        | node :: rest => (((node.1, f node.2)) :: rest, n_keys))).n_keys then
        omp_hash_map.reserve_run hash
          (omp_hash_map.hash_node_apply hash s key (fun slot n_keys =>
        match slot with
        | [] => ([(key, f default)], n_keys + 1)
        | node :: rest => (((node.1, f node.2)) :: rest, n_keys)))
          (omp_hash_map.hash_node_apply hash s key (fun slot n_keys =>
        match slot with
        | [] => ([(key, f default)], n_keys + 1)
        | node :: rest => (((node.1, f node.2)) :: rest, n_keys))).n_keys
      else
        (omp_hash_map.hash_node_apply hash s key (fun slot n_keys =>
        match slot with
        | [] => ([(key, f default)], n_keys + 1)
        | node :: rest => (((node.1, f node.2)) :: rest, n_keys)))) := rfl
  have hgrow := map_grow_spec hash _ p1
  refine ⟨?_, ?_, ?_, ?_⟩
  · rw [heq]
    exact hgrow.1
  · rw [heq, hgrow.2.1 key, p3]
  · intro k2 hk2
    rw [heq, hgrow.2.1 k2, p4 k2 hk2]
  · rw [heq, hgrow.2.2, p5]

lemma map_set_fd_spec (s : omp_hash_map.State K V) (hwf : omp_hash_map.wf hash s)
    (key : K) (f : V → V) (d : V) :
    omp_hash_map.wf hash (omp_hash_map.set_fd hash s key f d) ∧
    omp_hash_map.lookup hash (omp_hash_map.set_fd hash s key f d) key =
      some ((omp_hash_map.lookup hash s key).elim (f d) f) ∧
    (∀ k2, k2 ≠ key → omp_hash_map.lookup hash (omp_hash_map.set_fd hash s key f d) k2 =
      omp_hash_map.lookup hash s k2) ∧
    (omp_hash_map.set_fd hash s key f d).n_keys =
      (omp_hash_map.lookup hash s key).elim (s.n_keys + 1) (fun _ => s.n_keys) := by
  obtain ⟨p1, p2, p3, p4, p5⟩ := map_insert_phase hash s
    (omp_hash_map.hash_node_apply hash s key (fun slot n_keys =>
      match slot with
      | [] => ([(key, f d)], n_keys + 1)
      | node :: rest => ((node.1, f node.2) :: rest, n_keys)))
    hwf key (f d) f
    (fun slot n_keys =>
      match slot with
      | [] => ([(key, f d)], n_keys + 1)
      | node :: rest => ((node.1, f node.2) :: rest, n_keys))
    (fun _ => rfl) (fun _ _ _ => rfl) rfl
  have heq : omp_hash_map.set_fd hash s key f d =
      (if (omp_hash_map.hash_node_apply hash s key (fun slot n_keys =>
        match slot with
        | [] => ([(key, f d)], n_keys + 1)
        | node :: rest => (((node.1, f node.2)) :: rest, n_keys))).n_buckets ≤
        (omp_hash_map.hash_node_apply hash s key (fun slot n_keys =>
        match slot with
        | [] => ([(key, f d)], n_keys + 1)
        | node :: rest => (((node.1, f node.2)) :: rest, n_keys))).n_keys then
        omp_hash_map.reserve_run hash
          (omp_hash_map.hash_node_apply hash s key (fun slot n_keys =>
        match slot with
        | [] => ([(key, f d)], n_keys + 1)
        | node :: rest => (((node.1, f node.2)) :: rest, n_keys)))
          (omp_hash_map.hash_node_apply hash s key (fun slot n_keys =>
        match slot with
        | [] => ([(key, f d)], n_keys + 1)
        | node :: rest => (((node.1, f node.2)) :: rest, n_keys))).n_keys
      else
        (omp_hash_map.hash_node_apply hash s key (fun slot n_keys =>
        match slot with
        | [] => ([(key, f d)], n_keys + 1)
        | node :: rest => (((node.1, f node.2)) :: rest, n_keys)))) := rfl
  have hgrow := map_grow_spec hash _ p1
  refine ⟨?_, ?_, ?_, ?_⟩
  · rw [heq]
    exact hgrow.1
  · rw [heq, hgrow.2.1 key, p3]
  · intro k2 hk2
    rw [heq, hgrow.2.1 k2, p4 k2 hk2]
  · rw [heq, hgrow.2.2, p5]

lemma map_has_eq_lookup (s : omp_hash_map.State K V) (k : K) :
    omp_hash_map.has hash s k = (omp_hash_map.lookup hash s k).isSome := by
  unfold omp_hash_map.has omp_hash_map.lookup
  cases find_slot Prod.fst k (s.buckets.getD (omp_hash_map.bucket_id hash s k) []) with
  | nil => rfl
  | cons node rest => rfl

lemma map_gcod_eq_lookup (s : omp_hash_map.State K V) (k : K) (d : V) :
    omp_hash_map.get_copy_or_default hash s k d = (omp_hash_map.lookup hash s k).getD d := by
  unfold omp_hash_map.get_copy_or_default omp_hash_map.lookup
  cases find_slot Prod.fst k (s.buckets.getD (omp_hash_map.bucket_id hash s k) []) with
  | nil => rfl
  | cons node rest => rfl

lemma map_wf_construct :
    omp_hash_map.wf hash (omp_hash_map.construct : omp_hash_map.State K V) := by
  refine ⟨?_, ?_, ?_, ?_, ?_⟩
  · show omp_hash_map.N_INITIAL_BUCKETS =
      (List.replicate omp_hash_map.N_INITIAL_BUCKETS ([] : List (K × V))).length
    simp
  · show 0 < omp_hash_map.N_INITIAL_BUCKETS
    norm_num [omp_hash_map.N_INITIAL_BUCKETS]
  · intro i _ e he
    have he2 : e ∈ (List.replicate omp_hash_map.N_INITIAL_BUCKETS
        ([] : List (K × V))).getD i [] := he
    rw [getD_replicate_nil] at he2
    exact absurd he2 (List.not_mem_nil e)
  · show ((List.replicate omp_hash_map.N_INITIAL_BUCKETS
        ([] : List (K × V))).flatten.map Prod.fst).Nodup
    rw [flatten_replicate_nil]
    exact List.nodup_nil
  · show (0 : Nat) = (List.replicate omp_hash_map.N_INITIAL_BUCKETS
        ([] : List (K × V))).flatten.length
    rw [flatten_replicate_nil]
    rfl

lemma map_run_op_wf (s : omp_hash_map.State K V) (op : omp_hash_map.Op K V)
    (hwf : omp_hash_map.wf hash s) (h : op ≠ omp_hash_map.Op.clear) :
    omp_hash_map.wf hash (omp_hash_map.run_op hash s op) := by
  cases op with
  | set k v => exact (map_set_spec hash s hwf k v).1
  | set_f k f => exact (map_set_f_spec hash s hwf k f).1
  | set_fd k f d => exact (map_set_fd_spec hash s hwf k f d).1
  | unset k => exact (map_unset_spec hash s hwf k).1
  | reserve m => exact (map_reserve_run_spec hash s hwf m).1
  | clear => exact absurd rfl h

lemma map_run_op_lookup_untouched (s : omp_hash_map.State K V)
    (op : omp_hash_map.Op K V) (k : K) (hwf : omp_hash_map.wf hash s)
    (hins : omp_hash_map.op_inserts k op = false)
    (huns : omp_hash_map.op_unsets k op = false)
    (hcl : op ≠ omp_hash_map.Op.clear) :
    omp_hash_map.lookup hash (omp_hash_map.run_op hash s op) k =
      omp_hash_map.lookup hash s k := by
  cases op with
  | set k2 v =>
    have : k2 ≠ k := by simpa [omp_hash_map.op_inserts] using hins
    exact (map_set_spec hash s hwf k2 v).2.2.1 k (fun e => this e.symm)
  | set_f k2 f =>
    have : k2 ≠ k := by simpa [omp_hash_map.op_inserts] using hins
    exact (map_set_f_spec hash s hwf k2 f).2.2.1 k (fun e => this e.symm)
  | set_fd k2 f d =>
    have : k2 ≠ k := by simpa [omp_hash_map.op_inserts] using hins
    exact (map_set_fd_spec hash s hwf k2 f d).2.2.1 k (fun e => this e.symm)
  | unset k2 =>
    have : k2 ≠ k := by simpa [omp_hash_map.op_unsets] using huns
    exact (map_unset_spec hash s hwf k2).2.2.2.1 k (fun e => this e.symm)
  | reserve m => exact (map_reserve_run_spec hash s hwf m).2.1 k
  | clear => exact absurd rfl hcl

lemma map_run_key_absent (k : K) :
    ∀ (ops : List (omp_hash_map.Op K V)) (s : omp_hash_map.State K V) (b : Bool),
      omp_hash_map.wf hash s → omp_hash_map.clear_free ops = true →
      (b = true → omp_hash_map.lookup hash s k = none) →
      omp_hash_map.wf hash (omp_hash_map.run hash s ops) ∧
      (ops.foldl (omp_hash_map.key_absent_step k) b = true →
        omp_hash_map.lookup hash (omp_hash_map.run hash s ops) k = none) := by
  intro ops
  induction ops with
  | nil => intro s b hwf _ hb; exact ⟨hwf, hb⟩
  | cons op rest ih =>
    intro s b hwf hcf hb
    simp only [omp_hash_map.clear_free, List.all_cons, Bool.and_eq_true] at hcf
    have hopnc : op ≠ omp_hash_map.Op.clear := by
      intro e
      subst e
      simp [omp_hash_map.op_is_clear] at hcf
    have hwf2 : omp_hash_map.wf hash (omp_hash_map.run_op hash s op) :=
      map_run_op_wf hash s op hwf hopnc
    have hstep : omp_hash_map.key_absent_step k b op = true →
        omp_hash_map.lookup hash (omp_hash_map.run_op hash s op) k = none := by
      intro hb2
      unfold omp_hash_map.key_absent_step at hb2
      by_cases hi : omp_hash_map.op_inserts k op = true
      · rw [if_pos hi] at hb2
        exact absurd hb2 (by simp)
      · rw [if_neg hi] at hb2
        by_cases hu : omp_hash_map.op_unsets k op = true
        · cases op with
          | unset k2 =>
            have hk2 : k2 = k := by simpa [omp_hash_map.op_unsets] using hu
            subst hk2
            exact (map_unset_spec hash s hwf k2).2.2.1
          | set k2 v => simp [omp_hash_map.op_unsets] at hu
          | set_f k2 f => simp [omp_hash_map.op_unsets] at hu
          | set_fd k2 f d => simp [omp_hash_map.op_unsets] at hu
          | reserve m => simp [omp_hash_map.op_unsets] at hu
          | clear => exact absurd rfl hopnc
        · rw [if_neg hu] at hb2
          rw [map_run_op_lookup_untouched hash s op k hwf
            (by simpa using hi) (by simpa using hu) hopnc]
          exact hb hb2
    exact ih (omp_hash_map.run_op hash s op) (omp_hash_map.key_absent_step k b op)
      hwf2 hcf.2 hstep

end MapOpLemmas

section SetRemoveLemmas

variable {K : Type} [DecidableEq K] (hash : K → Nat)

lemma set_bucket_id_lt (s : omp_hash_set.SetState K) (hswf : omp_hash_set.swf hash s)
    (k : K) : omp_hash_set.set_bucket_id hash s k < s.buckets.length := by
  obtain ⟨h1, h2, _⟩ := hswf
  rw [← h1]
  exact Nat.mod_lt _ h2

lemma set_has_eq_head (s : omp_hash_set.SetState K) (k : K) :
    omp_hash_set.set_has hash s k =
      (find_slot id k
        (s.buckets.getD (omp_hash_set.set_bucket_id hash s k) [])).head?.isSome := by
  unfold omp_hash_set.set_has
  cases find_slot id k (s.buckets.getD (omp_hash_set.set_bucket_id hash s k) []) with
  | nil => rfl
  | cons node rest => rfl

lemma set_remove_spec (s : omp_hash_set.SetState K) (hswf : omp_hash_set.swf hash s)
    (key : K) :
    (omp_hash_set.remove hash s key).n_buckets = s.n_buckets ∧
    omp_hash_set.set_has hash (omp_hash_set.remove hash s key) key = false ∧
    (∀ k2, k2 ≠ key → omp_hash_set.set_has hash (omp_hash_set.remove hash s key) k2 =
      omp_hash_set.set_has hash s k2) ∧
    (omp_hash_set.set_has hash s key = false → omp_hash_set.remove hash s key = s) ∧
    (omp_hash_set.set_has hash s key = true →
      (omp_hash_set.remove hash s key).n_keys + 1 = s.n_keys ∧
      ∃ c1 c2, key ∉ c1 ∧
        s.buckets.getD (omp_hash_set.set_bucket_id hash s key) [] = c1 ++ key :: c2 ∧
        (omp_hash_set.remove hash s key).buckets =
          s.buckets.set (omp_hash_set.set_bucket_id hash s key) (c1 ++ c2)) := by
  have hb := set_bucket_id_lt hash s hswf key
  have happ := apply_rec_eq id key
    (fun slot n_keys =>
      match slot with
      | [] => ([], n_keys)
      | _ :: rest => (rest, n_keys - 1))
    (s.buckets.getD (omp_hash_set.set_bucket_id hash s key) []) s.n_keys
  have hbuckets : (omp_hash_set.remove hash s key).buckets =
      s.buckets.set (omp_hash_set.set_bucket_id hash s key)
        (before_slot id key
            (s.buckets.getD (omp_hash_set.set_bucket_id hash s key) []) ++
          ((fun (slot : List K) (n_keys : Nat) =>
            match slot with
            | [] => (([] : List K), n_keys)
            | _ :: rest => (rest, n_keys - 1))
            (find_slot id key
              (s.buckets.getD (omp_hash_set.set_bucket_id hash s key) []))
            s.n_keys).1) := by
    show s.buckets.set (omp_hash_set.set_bucket_id hash s key)
        (hash_node_apply_recursive id key _
          (s.buckets.getD (omp_hash_set.set_bucket_id hash s key) []) s.n_keys).1 = _
    rw [happ]
  have hnkeys : (omp_hash_set.remove hash s key).n_keys =
      ((fun (slot : List K) (n_keys : Nat) =>
        match slot with
        | [] => (([] : List K), n_keys)
        | _ :: rest => (rest, n_keys - 1))
        (find_slot id key
          (s.buckets.getD (omp_hash_set.set_bucket_id hash s key) []))
        s.n_keys).2 := by
    show (hash_node_apply_recursive id key _
        (s.buckets.getD (omp_hash_set.set_bucket_id hash s key) []) s.n_keys).2 = _
    rw [happ]
  have hnb : (omp_hash_set.remove hash s key).n_buckets = s.n_buckets := rfl
  have hbid : ∀ k2 : K,
      omp_hash_set.set_bucket_id hash (omp_hash_set.remove hash s key) k2 =
        omp_hash_set.set_bucket_id hash s k2 := fun _ => rfl
  cases hfs : find_slot id key
      (s.buckets.getD (omp_hash_set.set_bucket_id hash s key) []) with
  | nil =>
    rw [hfs] at hbuckets hnkeys
    dsimp only at hbuckets hnkeys
    have hbefore : before_slot id key
        (s.buckets.getD (omp_hash_set.set_bucket_id hash s key) []) =
        s.buckets.getD (omp_hash_set.set_bucket_id hash s key) [] := by
      have := before_append_find id key
        (s.buckets.getD (omp_hash_set.set_bucket_id hash s key) [])
      rw [hfs, List.append_nil] at this
      exact this
    have hhasfalse : omp_hash_set.set_has hash s key = false := by
      unfold omp_hash_set.set_has
      rw [hfs]
    have hid : omp_hash_set.remove hash s key = s := by
      have h1 : (omp_hash_set.remove hash s key).buckets = s.buckets := by
        rw [hbuckets, List.append_nil, hbefore]
        exact set_getD_self s.buckets _ [] hb
      have e : omp_hash_set.remove hash s key =
          ⟨(omp_hash_set.remove hash s key).n_keys,
           (omp_hash_set.remove hash s key).n_buckets,
           (omp_hash_set.remove hash s key).buckets⟩ := rfl
      rw [e, h1, hnkeys, hnb]
    refine ⟨hnb, ?_, ?_, fun _ => hid, ?_⟩
    · rw [hid]
      exact hhasfalse
    · intro k2 _
      rw [hid]
    · intro htrue
      rw [hhasfalse] at htrue
      exact absurd htrue (by simp)
  | cons node rest =>
    rw [hfs] at hbuckets hnkeys
    dsimp only at hbuckets hnkeys
    have hkey : node = key := find_slot_head id key _ node rest hfs
    subst hkey
    have hdecomp : before_slot id node
        (s.buckets.getD (omp_hash_set.set_bucket_id hash s node) []) ++ (node :: rest) =
        s.buckets.getD (omp_hash_set.set_bucket_id hash s node) [] := by
      have := before_append_find id node
        (s.buckets.getD (omp_hash_set.set_bucket_id hash s node) [])
      rw [hfs] at this
      exact this
    have hhastrue : omp_hash_set.set_has hash s node = true := by
      unfold omp_hash_set.set_has
      rw [hfs]
    have hbnotkey : node ∉ before_slot id node
        (s.buckets.getD (omp_hash_set.set_bucket_id hash s node) []) := by
      have := before_slot_keys id node
        (s.buckets.getD (omp_hash_set.set_bucket_id hash s node) [])
      simpa using this
    have hfsbefore : find_slot id node (before_slot id node
        (s.buckets.getD (omp_hash_set.set_bucket_id hash s node) [])) = [] := by
      refine (find_slot_eq_nil id node _).2 ?_
      simpa using hbnotkey
    have hchainnodup : (s.buckets.getD
        (omp_hash_set.set_bucket_id hash s node) []).Nodup :=
      List.Nodup.sublist (chain_sublist_flatten s.buckets _ hb) hswf.2.2.2.1
    have hkeynotrest : node ∉ rest := by
      have h0 := hchainnodup
      rw [← hdecomp] at h0
      have := (List.nodup_append.1 h0).2.1
      exact (List.nodup_cons.1 this).1
    refine ⟨hnb, ?_, ?_, ?_, ?_⟩
    · rw [set_has_eq_head, hbid, hbuckets, getD_set_self s.buckets _ _ _ hb,
        find_slot_append_absent id node _ _ hfsbefore,
        (find_slot_eq_nil id node rest).2 (by simpa using hkeynotrest)]
      rfl
    · intro k2 hk2
      rw [set_has_eq_head, set_has_eq_head, hbid, hbuckets]
      by_cases hbb : omp_hash_set.set_bucket_id hash s k2 =
          omp_hash_set.set_bucket_id hash s node
      · rw [hbb, getD_set_self s.buckets _ _ _ hb]
        have htails : (find_slot id k2 rest).head? =
            (find_slot id k2 (node :: rest)).head? := by
          simp only [find_slot]
          rw [if_neg (show ¬ id node = k2 from fun e => hk2 ((id.eq_1 node ▸ e).symm))]
        have := find_slot_head_append id k2
          (before_slot id node
            (s.buckets.getD (omp_hash_set.set_bucket_id hash s node) []))
          rest (node :: rest) htails
        rw [hdecomp] at this
        rw [this]
      · rw [getD_set_other s.buckets _ _ _ _ (fun e => hbb e.symm)]
    · intro hfalse
      rw [hhastrue] at hfalse
      exact absurd hfalse (by simp)
    · intro _
      constructor
      · rw [hnkeys]
        have hc := hswf.2.2.2.2
        rw [flatten_decomp s.buckets _ hb] at hc
        have hlen2 : (s.buckets.getD (omp_hash_set.set_bucket_id hash s node) []).length =
            (before_slot id node
              (s.buckets.getD (omp_hash_set.set_bucket_id hash s node) [])).length +
              rest.length + 1 := by
          conv_lhs => rw [← hdecomp]
          simp only [List.length_append, List.length_cons]
          omega
        simp only [List.length_append] at hc
        omega
      · refine ⟨before_slot id node
          (s.buckets.getD (omp_hash_set.set_bucket_id hash s node) []), rest,
          hbnotkey, ?_, hbuckets⟩
        rw [hdecomp]

end SetRemoveLemmas

section MapGrowthLemmas

variable {K V : Type} [DecidableEq K] [Inhabited V] (hash : K → Nat)

lemma map_grow_n_buckets_eq (s1 : omp_hash_map.State K V) :
    (if s1.n_buckets ≤ s1.n_keys then
      omp_hash_map.reserve_run hash s1 s1.n_keys else s1).n_buckets =
      (if s1.n_buckets ≤ s1.n_keys then
        (match omp_hash_map.get_n_rehashing_buckets s1.n_keys with
         | none => s1.n_buckets
         | some n2 => if n2 ≤ s1.n_buckets then s1.n_buckets else n2)
       else s1.n_buckets) := by
  split
  · cases hp : omp_hash_map.get_n_rehashing_buckets s1.n_keys with
    | none =>
      rw [map_reserve_run_none hash s1 _ hp]
    | some n2 =>
      rw [map_reserve_run_some hash s1 _ n2 hp, map_rehash_n_buckets]
  · rfl

lemma map_grow_cond_n_buckets (s1 : omp_hash_map.State K V) (nb nk : Nat)
    (hnb : s1.n_buckets = nb) (hnk : s1.n_keys = nk) :
    (if s1.n_buckets ≤ s1.n_keys then
      omp_hash_map.reserve_run hash s1 s1.n_keys else s1).n_buckets =
      (if nb ≤ nk then
        (match omp_hash_map.get_n_rehashing_buckets nk with
         | none => nb
         | some n2 => if n2 ≤ nb then nb else n2)
       else nb) := by
  subst hnb
  subst hnk
  exact map_grow_n_buckets_eq hash s1

lemma map_lookup_none_of_has_false (s : omp_hash_map.State K V) (k : K)
    (h : omp_hash_map.has hash s k = false) : omp_hash_map.lookup hash s k = none := by
  rw [map_has_eq_lookup] at h
  cases hl : omp_hash_map.lookup hash s k with
  | none => rfl
  | some v =>
    rw [hl] at h
    exact absurd h (by simp)

lemma map_lookup_some_of_has_true (s : omp_hash_map.State K V) (k : K)
    (h : omp_hash_map.has hash s k = true) :
    ∃ v, omp_hash_map.lookup hash s k = some v := by
  rw [map_has_eq_lookup] at h
  cases hl : omp_hash_map.lookup hash s k with
  | none =>
    rw [hl] at h
    exact absurd h (by simp)
  | some v => exact ⟨v, rfl⟩

end MapGrowthLemmas

section ClaimTheorems

/-- C1: the claim says every accepted request `m` yields a count `c ≥ m`, and
`get_n_buckets() ≥ m` after a successful `reserve(m)`.  The code violates this
on the large-multiplier path: the floor division drops the remainder, so the
map planner answers `4087521265 < 4087521266` for request 4087521266 (and
`reserve` then installs 4087521265 buckets), and the set planner answers
`174438 < 174439` for request 174439 — contradicting the planners' own
documentation comments. -/
theorem C1_planner_below_request :
    omp_hash_map.get_n_rehashing_buckets 4087521266 = some 4087521265 ∧
    4087521265 < 4087521266 ∧
    (omp_hash_map.reserve_run (fun n => n)
      (omp_hash_map.construct (K := Nat) (V := Nat)) 4087521266).n_buckets =
      4087521265 ∧
    omp_hash_set.get_n_rehashing_buckets 174439 = some 174438 ∧
    174438 < 174439 ∧
    (omp_hash_set.set_reserve_run (fun n => n)
      (omp_hash_set.construct_set (K := Nat)) 174439).n_buckets = 174438 := by
  refine ⟨by decide, by decide, ?_, by decide, by decide, ?_⟩
  · rw [map_reserve_run_some (fun n => n) _ _ 4087521265 (by decide),
      map_rehash_n_buckets]
    decide
  · rw [set_reserve_run_some (fun n => n) _ _ 174438 (by decide),
      set_rehash_n_buckets]
    decide

/-- C2: the claim says `clear()` reduces the bucket count back to the initial
small prime (5 map / 11 set) and leaves a container behaving like a fresh one.
The code only calls `buckets.resize(N_INITIAL_BUCKETS)` and never assigns the
scalar `n_buckets`: after `reserve(20); clear()` the map reports 23 buckets
while its bucket vector has length 5 (set variant: 17 vs 11 after
`reserve(12); clear()`), so the bucket count is not reduced and the
scalar/vector invariant is broken. -/
theorem C2_clear_does_not_reset_n_buckets :
    omp_hash_map.get_n_keys (omp_hash_map.clear (omp_hash_map.reserve_run (fun n => n)
      (omp_hash_map.construct (K := Nat) (V := Nat)) 20)) = 0 ∧
    omp_hash_map.get_n_buckets (omp_hash_map.clear (omp_hash_map.reserve_run (fun n => n)
      (omp_hash_map.construct (K := Nat) (V := Nat)) 20)) = 23 ∧
    (omp_hash_map.clear (omp_hash_map.reserve_run (fun n => n)
      (omp_hash_map.construct (K := Nat) (V := Nat)) 20)).buckets.length = 5 ∧
    ¬ omp_hash_map.get_n_buckets (omp_hash_map.clear (omp_hash_map.reserve_run (fun n => n)
      (omp_hash_map.construct (K := Nat) (V := Nat)) 20)) =
        omp_hash_map.N_INITIAL_BUCKETS ∧
    omp_hash_set.set_get_n_keys (omp_hash_set.set_clear
      (omp_hash_set.set_reserve_run (fun n => n)
        (omp_hash_set.construct_set (K := Nat)) 12)) = 0 ∧
    omp_hash_set.set_get_n_buckets (omp_hash_set.set_clear
      (omp_hash_set.set_reserve_run (fun n => n)
        (omp_hash_set.construct_set (K := Nat)) 12)) = 17 ∧
    (omp_hash_set.set_clear (omp_hash_set.set_reserve_run (fun n => n)
      (omp_hash_set.construct_set (K := Nat)) 12)).buckets.length = 11 ∧
    ¬ omp_hash_set.set_get_n_buckets (omp_hash_set.set_clear
      (omp_hash_set.set_reserve_run (fun n => n)
        (omp_hash_set.construct_set (K := Nat)) 12)) =
          omp_hash_set.SET_N_INITIAL_BUCKETS := by
  decide

/-- C3: the claim says every point access stays in bounds because the scalar
`n_buckets` always equals the bucket vector's length.  Reachable
counterexample: after the public sequence `reserve(20); clear()` the map's
scalar is 23 but the vector has length 5, and a point access on a key with
hash 5 computes `bucket_id = 5`, which is not below the vector length — an
out-of-bounds access (set variant: scalar 17, length 11, key hash 11). -/
theorem C3_point_access_out_of_bounds :
    (omp_hash_map.run (fun n => n) (omp_hash_map.construct (K := Nat) (V := Nat))
      [omp_hash_map.Op.reserve 20, omp_hash_map.Op.clear]).n_buckets = 23 ∧
    (omp_hash_map.run (fun n => n) (omp_hash_map.construct (K := Nat) (V := Nat))
      [omp_hash_map.Op.reserve 20, omp_hash_map.Op.clear]).buckets.length = 5 ∧
    omp_hash_map.bucket_id (fun n => n)
      (omp_hash_map.run (fun n => n) (omp_hash_map.construct (K := Nat) (V := Nat))
        [omp_hash_map.Op.reserve 20, omp_hash_map.Op.clear]) 5 = 5 ∧
    ¬ (omp_hash_map.bucket_id (fun n => n)
      (omp_hash_map.run (fun n => n) (omp_hash_map.construct (K := Nat) (V := Nat))
        [omp_hash_map.Op.reserve 20, omp_hash_map.Op.clear]) 5 <
      (omp_hash_map.run (fun n => n) (omp_hash_map.construct (K := Nat) (V := Nat))
        [omp_hash_map.Op.reserve 20, omp_hash_map.Op.clear]).buckets.length) ∧
    ¬ (omp_hash_set.set_bucket_id (fun n => n)
      (omp_hash_set.run_set (fun n => n) (omp_hash_set.construct_set (K := Nat))
        [omp_hash_set.SOp.reserve 12, omp_hash_set.SOp.clear]) 11 <
      (omp_hash_set.run_set (fun n => n) (omp_hash_set.construct_set (K := Nat))
        [omp_hash_set.SOp.reserve 12, omp_hash_set.SOp.clear]).buckets.length) := by
  decide

/-- C10: both capacity planners are idempotent on every request below `2 ^ 64`
that they accept: applying the planner to its own result returns that result
unchanged. -/
theorem C10_planner_idempotent :
    ∀ m c : Nat, m < 2 ^ 64 →
      (omp_hash_map.get_n_rehashing_buckets m = some c →
        omp_hash_map.get_n_rehashing_buckets c = some c) ∧
      (omp_hash_set.get_n_rehashing_buckets m = some c →
        omp_hash_set.get_n_rehashing_buckets c = some c) := by
  intro m c _
  constructor
  · intro h
    obtain ⟨p, hp, hc⟩ := map_planner_mem m c h
    rcases hc with rfl | rfl
    · exact (map_planner_fixed _ hp).1
    · exact (map_planner_fixed p hp).2
  · intro h
    obtain ⟨p, hp, hc⟩ := set_planner_mem m c h
    rcases hc with rfl | rfl | rfl | rfl
    · exact (set_planner_fixed _ hp).1
    · exact (set_planner_fixed p hp).2.1
    · exact (set_planner_fixed p hp).2.2.1
    · exact (set_planner_fixed p hp).2.2.2

/-- Witness for C10 at the concrete requests 100 (map) and 30 (set). -/
theorem C10_witness :
    omp_hash_map.get_n_rehashing_buckets 199 = some 199 ∧
    omp_hash_set.get_n_rehashing_buckets 47 = some 47 :=
  ⟨(C10_planner_idempotent 100 199 (by decide)).1 (by decide),
   (C10_planner_idempotent 30 47 (by decide)).2 (by decide)⟩

/-- C4 counterexample: the claim says the planner multiplies by at most ONE
large prime factor and fails exactly when the remainder after that one
multiplication exceeds the table maximum.  The set planner accepts
2766237804 = 15858 · 15858 · 11 although after a single division the
remaining factor 174438 exceeds its table maximum 104729: it multiplies by
15858 (which is not even prime) up to three times. -/
theorem C4_counterexample_set_planner :
    omp_hash_set.get_n_rehashing_buckets 2766237804 = some 2766237804 ∧
    104729 < 2766237804 / 15858 := by
  decide

/-- C4 (amended): the map planner multiplies the request by at most one factor
817504253 and fails exactly when `m / 817504253` exceeds 2147483647; the set
planner multiplies by at most three factors 15858 and fails exactly when
`m / 15858³` exceeds 104729; every accepted result has the corresponding
product form; and when the planner fails, `reserve` leaves the container
completely unchanged (so subsequent operations continue to work on the
previous state). -/
theorem C4_planner_failure_behaviour :
    ∀ m : Nat, m < 2 ^ 64 →
      (omp_hash_map.get_n_rehashing_buckets m = none ↔ 2147483647 < m / 817504253) ∧
      (omp_hash_set.get_n_rehashing_buckets m = none ↔
        104729 < m / (15858 * 15858 * 15858)) ∧
      (∀ c, omp_hash_map.get_n_rehashing_buckets m = some c →
        ∃ p ∈ omp_hash_map.PRIME_NUMBERS, c = p ∨ c = 817504253 * p) ∧
      (∀ c, omp_hash_set.get_n_rehashing_buckets m = some c →
        ∃ p ∈ omp_hash_set.SET_PRIME_NUMBERS,
          c = p ∨ c = 15858 * p ∨ c = 15858 * 15858 * p ∨
            c = 15858 * 15858 * 15858 * p) ∧
      (∀ {K V : Type} [DecidableEq K] [Inhabited V] (hash : K → Nat)
        (s : omp_hash_map.State K V), omp_hash_map.get_n_rehashing_buckets m = none →
          omp_hash_map.reserve_run hash s m = s) ∧
      (∀ {K : Type} [DecidableEq K] (hash : K → Nat) (s : omp_hash_set.SetState K),
        omp_hash_set.get_n_rehashing_buckets m = none →
          omp_hash_set.set_reserve_run hash s m = s) := by
  intro m _
  refine ⟨map_planner_none_iff m, set_planner_none_iff m,
    fun c h => map_planner_mem m c h, fun c h => set_planner_mem m c h, ?_, ?_⟩
  · intro K V _ _ hash s h
    exact map_reserve_run_none hash s m h
  · intro K _ hash s h
    exact set_reserve_run_none hash s m h

/-- Witness for C4: a failing map request leaves the map unchanged, a failing
set request leaves the set unchanged, and an accepted map request has the
product form. -/
theorem C4_witness :
    omp_hash_map.reserve_run (fun n => n)
      (omp_hash_map.construct (K := Nat) (V := Nat)) (817504253 * 2147483648) =
      omp_hash_map.construct ∧
    omp_hash_set.set_reserve_run (fun n => n)
      (omp_hash_set.construct_set (K := Nat)) (15858 * 15858 * 15858 * 104730) =
      omp_hash_set.construct_set ∧
    (∃ p ∈ omp_hash_map.PRIME_NUMBERS, 23 = p ∨ 23 = 817504253 * p) :=
  ⟨(C4_planner_failure_behaviour (817504253 * 2147483648)
      (by decide)).2.2.2.2.1 (fun n => n) _ (by decide),
   (C4_planner_failure_behaviour (15858 * 15858 * 15858 * 104730)
      (by decide)).2.2.2.2.2 (fun n => n) _ (by decide),
   (C4_planner_failure_behaviour 20 (by decide)).2.2.1 23 (by decide)⟩

end ClaimTheorems

section ClaimTheorems2

lemma map_lookup_construct {K V : Type} [DecidableEq K] [Inhabited V] (hash : K → Nat)
    (k : K) :
    omp_hash_map.lookup hash (omp_hash_map.construct : omp_hash_map.State K V) k = none := by
  unfold omp_hash_map.lookup
  rw [show (omp_hash_map.construct : omp_hash_map.State K V).buckets.getD
      (omp_hash_map.bucket_id hash omp_hash_map.construct k) [] = [] from
    getD_replicate_nil _ _]
  rfl

/-- C9: the rehash engine never shrinks: a request `n2 ≤ n_buckets` returns the
container unchanged, a larger request installs exactly `n2` buckets, and the
bucket count is monotonically non-decreasing across every public operation and
operation sequence that contains no `clear` — in both variants. -/
theorem C9_rehash_monotone :
    ∀ {K V K2 : Type} [DecidableEq K] [Inhabited V] [DecidableEq K2]
      (hash : K → Nat) (hash2 : K2 → Nat)
      (s : omp_hash_map.State K V) (t : omp_hash_set.SetState K2) (n2 : Nat)
      (op : omp_hash_map.Op K V) (sop : omp_hash_set.SOp K2)
      (ops : List (omp_hash_map.Op K V)) (sops : List (omp_hash_set.SOp K2)),
      (n2 ≤ s.n_buckets → omp_hash_map.rehash hash s n2 = s) ∧
      (s.n_buckets < n2 → (omp_hash_map.rehash hash s n2).n_buckets = n2) ∧
      (op ≠ omp_hash_map.Op.clear →
        s.n_buckets ≤ (omp_hash_map.run_op hash s op).n_buckets) ∧
      (omp_hash_map.clear_free ops = true →
        s.n_buckets ≤ (omp_hash_map.run hash s ops).n_buckets) ∧
      (n2 ≤ t.n_buckets → omp_hash_set.set_rehash hash2 t n2 = t) ∧
      (t.n_buckets < n2 → (omp_hash_set.set_rehash hash2 t n2).n_buckets = n2) ∧
      (sop ≠ omp_hash_set.SOp.clear →
        t.n_buckets ≤ (omp_hash_set.run_set_op hash2 t sop).n_buckets) ∧
      ((sops.all fun op2 => !(op2 matches omp_hash_set.SOp.clear)) = true →
        t.n_buckets ≤ (omp_hash_set.run_set hash2 t sops).n_buckets) := by
  intro K V K2 _ _ _ hash hash2 s t n2 op sop ops sops
  refine ⟨map_rehash_le hash s n2, ?_, map_op_n_buckets_mono hash s op,
    fun h => map_run_n_buckets_mono hash ops s h, set_rehash_le hash2 t n2, ?_,
    set_op_n_buckets_mono hash2 t sop,
    fun h => set_run_n_buckets_mono hash2 sops t h⟩
  · intro h
    rw [map_rehash_n_buckets, if_neg (by omega)]
  · intro h
    rw [set_rehash_n_buckets, if_neg (by omega)]

/-- Witness for C9 on concrete states of both variants. -/
theorem C9_witness :
    omp_hash_map.rehash (fun n => n)
      (omp_hash_map.construct (K := Nat) (V := Nat)) 3 = omp_hash_map.construct ∧
    (omp_hash_map.rehash (fun n => n)
      (omp_hash_map.construct (K := Nat) (V := Nat)) 40).n_buckets = 40 ∧
    5 ≤ (omp_hash_map.run_op (fun n => n)
      (omp_hash_map.construct (K := Nat) (V := Nat))
      (omp_hash_map.Op.unset 1)).n_buckets ∧
    5 ≤ (omp_hash_map.run (fun n => n) (omp_hash_map.construct (K := Nat) (V := Nat))
      [omp_hash_map.Op.set 1 2, omp_hash_map.Op.reserve 40]).n_buckets ∧
    (omp_hash_set.set_rehash (fun n => n)
      (omp_hash_set.construct_set (K := Nat)) 20).n_buckets = 20 ∧
    11 ≤ (omp_hash_set.run_set_op (fun n => n)
      (omp_hash_set.construct_set (K := Nat)) (omp_hash_set.SOp.remove 1)).n_buckets ∧
    11 ≤ (omp_hash_set.run_set (fun n => n) (omp_hash_set.construct_set (K := Nat))
      [omp_hash_set.SOp.add 1]).n_buckets :=
  ⟨(C9_rehash_monotone (fun n => n) (fun n => n)
      (omp_hash_map.construct : omp_hash_map.State Nat Nat)
      (omp_hash_set.construct_set (K := Nat)) 3 (omp_hash_map.Op.unset 1)
      (omp_hash_set.SOp.remove 1) [] []).1 (by decide),
   (C9_rehash_monotone (fun n => n) (fun n => n)
      (omp_hash_map.construct : omp_hash_map.State Nat Nat)
      (omp_hash_set.construct_set (K := Nat)) 40 (omp_hash_map.Op.unset 1)
      (omp_hash_set.SOp.remove 1) [] []).2.1 (by decide),
   (C9_rehash_monotone (fun n => n) (fun n => n)
      (omp_hash_map.construct : omp_hash_map.State Nat Nat)
      (omp_hash_set.construct_set (K := Nat)) 3 (omp_hash_map.Op.unset 1)
      (omp_hash_set.SOp.remove 1) [] []).2.2.1
      (fun h => omp_hash_map.Op.noConfusion h),
   (C9_rehash_monotone (fun n => n) (fun n => n)
      (omp_hash_map.construct : omp_hash_map.State Nat Nat)
      (omp_hash_set.construct_set (K := Nat)) 3 (omp_hash_map.Op.unset 1)
      (omp_hash_set.SOp.remove 1)
      [omp_hash_map.Op.set 1 2, omp_hash_map.Op.reserve 40] []).2.2.2.1 (by decide),
   (C9_rehash_monotone (fun n => n) (fun n => n)
      (omp_hash_map.construct : omp_hash_map.State Nat Nat)
      (omp_hash_set.construct_set (K := Nat)) 20 (omp_hash_map.Op.unset 1)
      (omp_hash_set.SOp.remove 1) [] []).2.2.2.2.2.1 (by decide),
   (C9_rehash_monotone (fun n => n) (fun n => n)
      (omp_hash_map.construct : omp_hash_map.State Nat Nat)
      (omp_hash_set.construct_set (K := Nat)) 3 (omp_hash_map.Op.unset 1)
      (omp_hash_set.SOp.remove 1) [] []).2.2.2.2.2.2.1
      (fun h => omp_hash_set.SOp.noConfusion h),
   (C9_rehash_monotone (fun n => n) (fun n => n)
      (omp_hash_map.construct : omp_hash_map.State Nat Nat)
      (omp_hash_set.construct_set (K := Nat)) 3 (omp_hash_map.Op.unset 1)
      (omp_hash_set.SOp.remove 1) [] [omp_hash_set.SOp.add 1]).2.2.2.2.2.2.2
      (by decide)⟩

/-- C5: `unset`/`remove` of a present key removes exactly the entry for that
key (its chain slot is replaced by the removed node's tail) and decrements
`n_keys` by exactly one; of an absent key it leaves the container entirely
unchanged; and it never changes `n_buckets` — in both variants, on every
well-formed state. -/
theorem C5_remove_semantics :
    ∀ {K V K2 : Type} [DecidableEq K] [Inhabited V] [DecidableEq K2]
      (hash : K → Nat) (hash2 : K2 → Nat) (s : omp_hash_map.State K V)
      (t : omp_hash_set.SetState K2) (k : K) (k2 : K2),
      omp_hash_map.wf hash s → omp_hash_set.swf hash2 t →
      ((omp_hash_map.unset hash s k).n_buckets = s.n_buckets ∧
       omp_hash_map.lookup hash (omp_hash_map.unset hash s k) k = none ∧
       (∀ k3, k3 ≠ k → omp_hash_map.lookup hash (omp_hash_map.unset hash s k) k3 =
         omp_hash_map.lookup hash s k3) ∧
       (omp_hash_map.lookup hash s k = none → omp_hash_map.unset hash s k = s) ∧
       (∀ v, omp_hash_map.lookup hash s k = some v →
         (omp_hash_map.unset hash s k).n_keys + 1 = s.n_keys ∧
         ∃ c1 c2, k ∉ c1.map Prod.fst ∧
           s.buckets.getD (omp_hash_map.bucket_id hash s k) [] = c1 ++ (k, v) :: c2 ∧
           (omp_hash_map.unset hash s k).buckets =
             s.buckets.set (omp_hash_map.bucket_id hash s k) (c1 ++ c2))) ∧
      ((omp_hash_set.remove hash2 t k2).n_buckets = t.n_buckets ∧
       omp_hash_set.set_has hash2 (omp_hash_set.remove hash2 t k2) k2 = false ∧
       (∀ k3, k3 ≠ k2 → omp_hash_set.set_has hash2 (omp_hash_set.remove hash2 t k2) k3 =
         omp_hash_set.set_has hash2 t k3) ∧
       (omp_hash_set.set_has hash2 t k2 = false → omp_hash_set.remove hash2 t k2 = t) ∧
       (omp_hash_set.set_has hash2 t k2 = true →
         (omp_hash_set.remove hash2 t k2).n_keys + 1 = t.n_keys ∧
         ∃ c1 c2, k2 ∉ c1 ∧
           t.buckets.getD (omp_hash_set.set_bucket_id hash2 t k2) [] = c1 ++ k2 :: c2 ∧
           (omp_hash_set.remove hash2 t k2).buckets =
             t.buckets.set (omp_hash_set.set_bucket_id hash2 t k2) (c1 ++ c2))) := by
  intro K V K2 _ _ _ hash hash2 s t k k2 hwf hswf
  obtain ⟨_, u2, u3, u4, u5, u6⟩ := map_unset_spec hash s hwf k
  obtain ⟨r1, r2, r3, r4, r5⟩ := set_remove_spec hash2 t hswf k2
  exact ⟨⟨u2, u3, u4, u5, u6⟩, ⟨r1, r2, r3, r4, r5⟩⟩

/-- Witness for C5: removing an absent key leaves concrete two-element
containers unchanged, removing a present key decrements the count by one. -/
theorem C5_witness :
    omp_hash_map.unset (fun n => n)
      (omp_hash_map.set (fun n => n) (omp_hash_map.set (fun n => n)
        omp_hash_map.construct 1 10) 2 20) 3 =
      omp_hash_map.set (fun n => n) (omp_hash_map.set (fun n => n)
        omp_hash_map.construct 1 10) 2 20 ∧
    (omp_hash_map.unset (fun n => n)
      (omp_hash_map.set (fun n => n) (omp_hash_map.set (fun n => n)
        omp_hash_map.construct 1 10) 2 20) 1).n_keys + 1 =
      (omp_hash_map.set (fun n => n) (omp_hash_map.set (fun n => n)
        omp_hash_map.construct 1 10) 2 20).n_keys ∧
    omp_hash_set.remove (fun n => n)
      (omp_hash_set.add (fun n => n) (omp_hash_set.add (fun n => n)
        omp_hash_set.construct_set 1) 2) 3 =
      omp_hash_set.add (fun n => n) (omp_hash_set.add (fun n => n)
        omp_hash_set.construct_set 1) 2 ∧
    (omp_hash_set.remove (fun n => n)
      (omp_hash_set.add (fun n => n) (omp_hash_set.add (fun n => n)
        omp_hash_set.construct_set 1) 2) 1).n_keys + 1 =
      (omp_hash_set.add (fun n => n) (omp_hash_set.add (fun n => n)
        omp_hash_set.construct_set 1) 2).n_keys :=
  ⟨(C5_remove_semantics (fun n => n) (fun n => n)
      (omp_hash_map.set (fun n => n) (omp_hash_map.set (fun n => n)
        omp_hash_map.construct 1 10) 2 20)
      (omp_hash_set.add (fun n => n) (omp_hash_set.add (fun n => n)
        omp_hash_set.construct_set 1) 2) 3 3
      (by decide) (by decide)).1.2.2.2.1 (by decide),
   ((C5_remove_semantics (fun n => n) (fun n => n)
      (omp_hash_map.set (fun n => n) (omp_hash_map.set (fun n => n)
        omp_hash_map.construct 1 10) 2 20)
      (omp_hash_set.add (fun n => n) (omp_hash_set.add (fun n => n)
        omp_hash_set.construct_set 1) 2) 1 1
      (by decide) (by decide)).1.2.2.2.2 10 (by decide)).1,
   (C5_remove_semantics (fun n => n) (fun n => n)
      (omp_hash_map.set (fun n => n) (omp_hash_map.set (fun n => n)
        omp_hash_map.construct 1 10) 2 20)
      (omp_hash_set.add (fun n => n) (omp_hash_set.add (fun n => n)
        omp_hash_set.construct_set 1) 2) 3 3
      (by decide) (by decide)).2.2.2.2.1 (by decide),
   ((C5_remove_semantics (fun n => n) (fun n => n)
      (omp_hash_map.set (fun n => n) (omp_hash_map.set (fun n => n)
        omp_hash_map.construct 1 10) 2 20)
      (omp_hash_set.add (fun n => n) (omp_hash_set.add (fun n => n)
        omp_hash_set.construct_set 1) 2) 1 1
      (by decide) (by decide)).2.2.2.2.2 (by decide)).1⟩

/-- C6: single-threaded insert/lookup round trip: after `set(k, v)` on any
well-formed state, `get_copy_or_default(k, d) = v` for every default `d`; and
for every clear-free operation sequence from a fresh container in which `k`
was never inserted, or was unset after its last insert, `has(k)` is false and
`get_copy_or_default(k, d) = d`. -/
theorem C6_insert_lookup_roundtrip :
    ∀ {K V : Type} [DecidableEq K] [Inhabited V] (hash : K → Nat)
      (s : omp_hash_map.State K V) (k : K) (v d : V)
      (ops : List (omp_hash_map.Op K V)),
      omp_hash_map.wf hash s →
      (omp_hash_map.get_copy_or_default hash (omp_hash_map.set hash s k v) k d = v ∧
       omp_hash_map.has hash (omp_hash_map.set hash s k v) k = true) ∧
      (omp_hash_map.clear_free ops = true → omp_hash_map.key_absent ops k = true →
        omp_hash_map.has hash
          (omp_hash_map.run hash omp_hash_map.construct ops) k = false ∧
        omp_hash_map.get_copy_or_default hash
          (omp_hash_map.run hash omp_hash_map.construct ops) k d = d) := by
  intro K V _ _ hash s k v d ops hwf
  constructor
  · have hl := (map_set_spec hash s hwf k v).2.1
    constructor
    · rw [map_gcod_eq_lookup, hl]
      rfl
    · rw [map_has_eq_lookup, hl]
      rfl
  · intro hcf hka
    have h := map_run_key_absent hash k ops omp_hash_map.construct true
      (map_wf_construct hash) hcf (fun _ => map_lookup_construct hash k)
    have hnone := h.2 hka
    constructor
    · rw [map_has_eq_lookup, hnone]
      rfl
    · rw [map_gcod_eq_lookup, hnone]
      rfl

/-- Witness for C6 on a concrete trace: set then read back, and a key that was
unset after its last insert reads as the default. -/
theorem C6_witness :
    omp_hash_map.get_copy_or_default (fun n => n)
      (omp_hash_map.set (fun n => n)
        (omp_hash_map.construct (K := Nat) (V := Nat)) 1 10) 1 7 = 10 ∧
    omp_hash_map.has (fun n => n)
      (omp_hash_map.run (fun n => n) (omp_hash_map.construct (K := Nat) (V := Nat))
        [omp_hash_map.Op.set 1 10, omp_hash_map.Op.unset 1,
         omp_hash_map.Op.set 2 5]) 1 = false ∧
    omp_hash_map.get_copy_or_default (fun n => n)
      (omp_hash_map.run (fun n => n) (omp_hash_map.construct (K := Nat) (V := Nat))
        [omp_hash_map.Op.set 1 10, omp_hash_map.Op.unset 1,
         omp_hash_map.Op.set 2 5]) 1 7 = 7 :=
  ⟨((C6_insert_lookup_roundtrip (fun n => n) omp_hash_map.construct 1 10 7 []
      (by decide)).1).1,
   ((C6_insert_lookup_roundtrip (fun n => n) omp_hash_map.construct 1 10 7
      [omp_hash_map.Op.set 1 10, omp_hash_map.Op.unset 1, omp_hash_map.Op.set 2 5]
      (by decide)).2 (by decide) (by decide)).1,
   ((C6_insert_lookup_roundtrip (fun n => n) omp_hash_map.construct 1 10 7
      [omp_hash_map.Op.set 1 10, omp_hash_map.Op.unset 1, omp_hash_map.Op.set 2 5]
      (by decide)).2 (by decide) (by decide)).2⟩

/-- C7: upsert composition on a fresh key: `upsert(k, f); upsert(k, g)` leaves
`g (f default-constructed)` at `k`, and the explicit-default overload
initialises the new value from the caller-supplied default before the mutator
runs, leaving `f d` at `k`. -/
theorem C7_upsert_composition :
    ∀ {K V : Type} [DecidableEq K] [Inhabited V] (hash : K → Nat)
      (s : omp_hash_map.State K V) (k : K) (f g : V → V) (d d2 : V),
      omp_hash_map.wf hash s → omp_hash_map.lookup hash s k = none →
      omp_hash_map.get_copy_or_default hash
        (omp_hash_map.set_f hash (omp_hash_map.set_f hash s k f) k g) k d2 =
        g (f default) ∧
      omp_hash_map.get_copy_or_default hash
        (omp_hash_map.set_fd hash s k f d) k d2 = f d := by
  intro K V _ _ hash s k f g d d2 hwf hnone
  have h1 := map_set_f_spec hash s hwf k f
  have hl1 : omp_hash_map.lookup hash (omp_hash_map.set_f hash s k f) k =
      some (f default) := by
    rw [h1.2.1, hnone]
    rfl
  have h2 := map_set_f_spec hash (omp_hash_map.set_f hash s k f) h1.1 k g
  have hl2 : omp_hash_map.lookup hash
      (omp_hash_map.set_f hash (omp_hash_map.set_f hash s k f) k g) k =
      some (g (f default)) := by
    rw [h2.2.1, hl1]
    rfl
  have h3 := map_set_fd_spec hash s hwf k f d
  have hl3 : omp_hash_map.lookup hash (omp_hash_map.set_fd hash s k f d) k =
      some (f d) := by
    rw [h3.2.1, hnone]
    rfl
  constructor
  · rw [map_gcod_eq_lookup, hl2]
    rfl
  · rw [map_gcod_eq_lookup, hl3]
    rfl

/-- Witness for C7 on the fresh key 3 of an empty map with successor and
doubling mutators. -/
theorem C7_witness :
    omp_hash_map.get_copy_or_default (fun n => n)
      (omp_hash_map.set_f (fun n => n)
        (omp_hash_map.set_f (fun n => n)
          (omp_hash_map.construct (K := Nat) (V := Nat)) 3 Nat.succ) 3
        (fun x => 2 * x)) 3 99 = 2 ∧
    omp_hash_map.get_copy_or_default (fun n => n)
      (omp_hash_map.set_fd (fun n => n)
        (omp_hash_map.construct (K := Nat) (V := Nat)) 3 Nat.succ 10) 3 99 = 11 :=
  ⟨((C7_upsert_composition (fun n => n) omp_hash_map.construct 3 Nat.succ
      (fun x => 2 * x) 10 99 (by decide) (by decide)).1).trans rfl,
   ((C7_upsert_composition (fun n => n) omp_hash_map.construct 3 Nat.succ
      (fun x => 2 * x) 10 99 (by decide) (by decide)).2).trans rfl⟩


lemma map_set_n_buckets_char {K V : Type} [DecidableEq K] [Inhabited V]
    (hash : K → Nat) (s : omp_hash_map.State K V) (hwf : omp_hash_map.wf hash s)
    (key : K) (value : V) :
    (omp_hash_map.set hash s key value).n_buckets =
      (if s.n_buckets ≤ (omp_hash_map.lookup hash s key).elim (s.n_keys + 1)
          (fun x => s.n_keys) then
        (match omp_hash_map.get_n_rehashing_buckets
            ((omp_hash_map.lookup hash s key).elim (s.n_keys + 1)
              (fun x => s.n_keys)) with
         | none => s.n_buckets
         | some n2 => if n2 ≤ s.n_buckets then s.n_buckets else n2)
       else s.n_buckets) := by
  obtain ⟨p1, p2, p3, p4, p5⟩ := map_insert_phase hash s
    (omp_hash_map.hash_node_apply hash s key (fun slot n_keys =>
      match slot with
      | [] => ([(key, value)], n_keys + 1)
      | node :: rest => ((node.1, value) :: rest, n_keys))) hwf key value (fun x => value)
    (fun slot n_keys =>
      match slot with
      | [] => ([(key, value)], n_keys + 1)
      | node :: rest => ((node.1, value) :: rest, n_keys))
    (fun n => rfl) (fun node rest n => rfl) rfl
  have heq : omp_hash_map.set hash s key value =
      (if (omp_hash_map.hash_node_apply hash s key (fun slot n_keys =>
      match slot with
      | [] => ([(key, value)], n_keys + 1)
      | node :: rest => ((node.1, value) :: rest, n_keys))).n_buckets ≤ (omp_hash_map.hash_node_apply hash s key (fun slot n_keys =>
      match slot with
      | [] => ([(key, value)], n_keys + 1)
      | node :: rest => ((node.1, value) :: rest, n_keys))).n_keys then
        omp_hash_map.reserve_run hash (omp_hash_map.hash_node_apply hash s key (fun slot n_keys =>
      match slot with
      | [] => ([(key, value)], n_keys + 1)
      | node :: rest => ((node.1, value) :: rest, n_keys))) (omp_hash_map.hash_node_apply hash s key (fun slot n_keys =>
      match slot with
      | [] => ([(key, value)], n_keys + 1)
      | node :: rest => ((node.1, value) :: rest, n_keys))).n_keys else (omp_hash_map.hash_node_apply hash s key (fun slot n_keys =>
      match slot with
      | [] => ([(key, value)], n_keys + 1)
      | node :: rest => ((node.1, value) :: rest, n_keys)))) := rfl
  rw [heq]
  exact map_grow_cond_n_buckets hash (omp_hash_map.hash_node_apply hash s key (fun slot n_keys =>
      match slot with
      | [] => ([(key, value)], n_keys + 1)
      | node :: rest => ((node.1, value) :: rest, n_keys))) s.n_buckets
    ((omp_hash_map.lookup hash s key).elim (s.n_keys + 1) (fun x => s.n_keys)) p2 p5


lemma map_set_f_n_buckets_char {K V : Type} [DecidableEq K] [Inhabited V]
    (hash : K → Nat) (s : omp_hash_map.State K V) (hwf : omp_hash_map.wf hash s)
    (key : K) (f : V → V) :
    (omp_hash_map.set_f hash s key f).n_buckets =
      (if s.n_buckets ≤ (omp_hash_map.lookup hash s key).elim (s.n_keys + 1)
          (fun x => s.n_keys) then
        (match omp_hash_map.get_n_rehashing_buckets
            ((omp_hash_map.lookup hash s key).elim (s.n_keys + 1)
              (fun x => s.n_keys)) with
         | none => s.n_buckets
         | some n2 => if n2 ≤ s.n_buckets then s.n_buckets else n2)
       else s.n_buckets) := by
  obtain ⟨p1, p2, p3, p4, p5⟩ := map_insert_phase hash s
    (omp_hash_map.hash_node_apply hash s key (fun slot n_keys =>
      match slot with
      | [] => ([(key, f default)], n_keys + 1)
      | node :: rest => ((node.1, f node.2) :: rest, n_keys))) hwf key (f default) f
    (fun slot n_keys =>
      match slot with
      | [] => ([(key, f default)], n_keys + 1)
      | node :: rest => ((node.1, f node.2) :: rest, n_keys))
    (fun n => rfl) (fun node rest n => rfl) rfl
  have heq : omp_hash_map.set_f hash s key f =
      (if (omp_hash_map.hash_node_apply hash s key (fun slot n_keys =>
      match slot with
      | [] => ([(key, f default)], n_keys + 1)
      | node :: rest => ((node.1, f node.2) :: rest, n_keys))).n_buckets ≤ (omp_hash_map.hash_node_apply hash s key (fun slot n_keys =>
      match slot with
      | [] => ([(key, f default)], n_keys + 1)
      | node :: rest => ((node.1, f node.2) :: rest, n_keys))).n_keys then
        omp_hash_map.reserve_run hash (omp_hash_map.hash_node_apply hash s key (fun slot n_keys =>
      match slot with
      | [] => ([(key, f default)], n_keys + 1)
      | node :: rest => ((node.1, f node.2) :: rest, n_keys))) (omp_hash_map.hash_node_apply hash s key (fun slot n_keys =>
      match slot with
      | [] => ([(key, f default)], n_keys + 1)
      | node :: rest => ((node.1, f node.2) :: rest, n_keys))).n_keys else (omp_hash_map.hash_node_apply hash s key (fun slot n_keys =>
      match slot with
      | [] => ([(key, f default)], n_keys + 1)
      | node :: rest => ((node.1, f node.2) :: rest, n_keys)))) := rfl
  rw [heq]
  exact map_grow_cond_n_buckets hash (omp_hash_map.hash_node_apply hash s key (fun slot n_keys =>
      match slot with
      | [] => ([(key, f default)], n_keys + 1)
      | node :: rest => ((node.1, f node.2) :: rest, n_keys))) s.n_buckets
    ((omp_hash_map.lookup hash s key).elim (s.n_keys + 1) (fun x => s.n_keys)) p2 p5


lemma map_set_fd_n_buckets_char {K V : Type} [DecidableEq K] [Inhabited V]
    (hash : K → Nat) (s : omp_hash_map.State K V) (hwf : omp_hash_map.wf hash s)
    (key : K) (f : V → V) (d : V) :
    (omp_hash_map.set_fd hash s key f d).n_buckets =
      (if s.n_buckets ≤ (omp_hash_map.lookup hash s key).elim (s.n_keys + 1)
          (fun x => s.n_keys) then
        (match omp_hash_map.get_n_rehashing_buckets
            ((omp_hash_map.lookup hash s key).elim (s.n_keys + 1)
              (fun x => s.n_keys)) with
         | none => s.n_buckets
         | some n2 => if n2 ≤ s.n_buckets then s.n_buckets else n2)
       else s.n_buckets) := by
  obtain ⟨p1, p2, p3, p4, p5⟩ := map_insert_phase hash s
    (omp_hash_map.hash_node_apply hash s key (fun slot n_keys =>
      match slot with
      | [] => ([(key, f d)], n_keys + 1)
      | node :: rest => ((node.1, f node.2) :: rest, n_keys))) hwf key (f d) f
    (fun slot n_keys =>
      match slot with
      | [] => ([(key, f d)], n_keys + 1)
      | node :: rest => ((node.1, f node.2) :: rest, n_keys))
    (fun n => rfl) (fun node rest n => rfl) rfl
  have heq : omp_hash_map.set_fd hash s key f d =
      (if (omp_hash_map.hash_node_apply hash s key (fun slot n_keys =>
      match slot with
      | [] => ([(key, f d)], n_keys + 1)
      | node :: rest => ((node.1, f node.2) :: rest, n_keys))).n_buckets ≤ (omp_hash_map.hash_node_apply hash s key (fun slot n_keys =>
      match slot with
      | [] => ([(key, f d)], n_keys + 1)
      | node :: rest => ((node.1, f node.2) :: rest, n_keys))).n_keys then
        omp_hash_map.reserve_run hash (omp_hash_map.hash_node_apply hash s key (fun slot n_keys =>
      match slot with
      | [] => ([(key, f d)], n_keys + 1)
      | node :: rest => ((node.1, f node.2) :: rest, n_keys))) (omp_hash_map.hash_node_apply hash s key (fun slot n_keys =>
      match slot with
      | [] => ([(key, f d)], n_keys + 1)
      | node :: rest => ((node.1, f node.2) :: rest, n_keys))).n_keys else (omp_hash_map.hash_node_apply hash s key (fun slot n_keys =>
      match slot with
      | [] => ([(key, f d)], n_keys + 1)
      | node :: rest => ((node.1, f node.2) :: rest, n_keys)))) := rfl
  rw [heq]
  exact map_grow_cond_n_buckets hash (omp_hash_map.hash_node_apply hash s key (fun slot n_keys =>
      match slot with
      | [] => ([(key, f d)], n_keys + 1)
      | node :: rest => ((node.1, f node.2) :: rest, n_keys))) s.n_buckets
    ((omp_hash_map.lookup hash s key).elim (s.n_keys + 1) (fun x => s.n_keys)) p2 p5


/-- C8: every insert/upsert overload performs the automatic-growth check after
its node handler has run: the count it tests is the post-handler key count
(already reflecting the pending insertion), the rehash it may trigger requests
exactly that count (at the default max_load_factor of 1.0), and an insert that
stays below the threshold leaves `n_buckets` unchanged. -/
theorem C8_growth_check_after_handler :
    ∀ {K V : Type} [DecidableEq K] [Inhabited V] (hash : K → Nat)
      (s : omp_hash_map.State K V) (key : K) (value : V) (f : V → V) (d : V),
      omp_hash_map.wf hash s →
      (omp_hash_map.set hash s key value).n_keys =
        (omp_hash_map.lookup hash s key).elim (s.n_keys + 1) (fun x => s.n_keys) ∧
      (omp_hash_map.set hash s key value).n_buckets =
        (if s.n_buckets ≤ (omp_hash_map.lookup hash s key).elim (s.n_keys + 1)
          (fun x => s.n_keys) then
        (match omp_hash_map.get_n_rehashing_buckets
            ((omp_hash_map.lookup hash s key).elim (s.n_keys + 1)
              (fun x => s.n_keys)) with
         | none => s.n_buckets
         | some n2 => if n2 ≤ s.n_buckets then s.n_buckets else n2)
       else s.n_buckets) ∧
      (omp_hash_map.set_f hash s key f).n_buckets =
        (if s.n_buckets ≤ (omp_hash_map.lookup hash s key).elim (s.n_keys + 1)
          (fun x => s.n_keys) then
        (match omp_hash_map.get_n_rehashing_buckets
            ((omp_hash_map.lookup hash s key).elim (s.n_keys + 1)
              (fun x => s.n_keys)) with
         | none => s.n_buckets
         | some n2 => if n2 ≤ s.n_buckets then s.n_buckets else n2)
       else s.n_buckets) ∧
      (omp_hash_map.set_fd hash s key f d).n_buckets =
        (if s.n_buckets ≤ (omp_hash_map.lookup hash s key).elim (s.n_keys + 1)
          (fun x => s.n_keys) then
        (match omp_hash_map.get_n_rehashing_buckets
            ((omp_hash_map.lookup hash s key).elim (s.n_keys + 1)
              (fun x => s.n_keys)) with
         | none => s.n_buckets
         | some n2 => if n2 ≤ s.n_buckets then s.n_buckets else n2)
       else s.n_buckets) := by
  intro K V _ _ hash s key value f d hwf
  exact ⟨(map_set_spec hash s hwf key value).2.2.2,
    map_set_n_buckets_char hash s hwf key value,
    map_set_f_n_buckets_char hash s hwf key f,
    map_set_fd_n_buckets_char hash s hwf key f d⟩


/-- Witness for C8: on a five-key table with five buckets the sixth insert
trips the post-handler check and grows to 11 buckets (for all three
overloads), while an insert into a six-key, eleven-bucket table stays below
the threshold and leaves the bucket count unchanged. -/
theorem C8_witness :
    (omp_hash_map.set (fun n => n) (omp_hash_map.run (fun n => n) (omp_hash_map.construct (K := Nat) (V := Nat))
      [omp_hash_map.Op.set 1 1, omp_hash_map.Op.set 2 2, omp_hash_map.Op.set 3 3,
       omp_hash_map.Op.set 4 4, omp_hash_map.Op.set 5 5]) 6 6).n_keys = 6 ∧
    (omp_hash_map.set (fun n => n) (omp_hash_map.run (fun n => n) (omp_hash_map.construct (K := Nat) (V := Nat))
      [omp_hash_map.Op.set 1 1, omp_hash_map.Op.set 2 2, omp_hash_map.Op.set 3 3,
       omp_hash_map.Op.set 4 4, omp_hash_map.Op.set 5 5]) 6 6).n_buckets = 11 ∧
    (omp_hash_map.set_f (fun n => n) (omp_hash_map.run (fun n => n) (omp_hash_map.construct (K := Nat) (V := Nat))
      [omp_hash_map.Op.set 1 1, omp_hash_map.Op.set 2 2, omp_hash_map.Op.set 3 3,
       omp_hash_map.Op.set 4 4, omp_hash_map.Op.set 5 5]) 6 Nat.succ).n_buckets = 11 ∧
    (omp_hash_map.set_fd (fun n => n) (omp_hash_map.run (fun n => n) (omp_hash_map.construct (K := Nat) (V := Nat))
      [omp_hash_map.Op.set 1 1, omp_hash_map.Op.set 2 2, omp_hash_map.Op.set 3 3,
       omp_hash_map.Op.set 4 4, omp_hash_map.Op.set 5 5]) 6 Nat.succ 9).n_buckets = 11 ∧
    (omp_hash_map.set (fun n => n) (omp_hash_map.run (fun n => n) (omp_hash_map.construct (K := Nat) (V := Nat))
      [omp_hash_map.Op.set 1 1, omp_hash_map.Op.set 2 2, omp_hash_map.Op.set 3 3,
       omp_hash_map.Op.set 4 4, omp_hash_map.Op.set 5 5, omp_hash_map.Op.set 6 6]) 7 7).n_buckets = 11 :=
  ⟨((C8_growth_check_after_handler (fun n => n) (omp_hash_map.run (fun n => n) (omp_hash_map.construct (K := Nat) (V := Nat))
      [omp_hash_map.Op.set 1 1, omp_hash_map.Op.set 2 2, omp_hash_map.Op.set 3 3,
       omp_hash_map.Op.set 4 4, omp_hash_map.Op.set 5 5]) 6 6 Nat.succ 9
      (by decide)).1).trans (by decide),
   ((C8_growth_check_after_handler (fun n => n) (omp_hash_map.run (fun n => n) (omp_hash_map.construct (K := Nat) (V := Nat))
      [omp_hash_map.Op.set 1 1, omp_hash_map.Op.set 2 2, omp_hash_map.Op.set 3 3,
       omp_hash_map.Op.set 4 4, omp_hash_map.Op.set 5 5]) 6 6 Nat.succ 9
      (by decide)).2.1).trans (by decide),
   ((C8_growth_check_after_handler (fun n => n) (omp_hash_map.run (fun n => n) (omp_hash_map.construct (K := Nat) (V := Nat))
      [omp_hash_map.Op.set 1 1, omp_hash_map.Op.set 2 2, omp_hash_map.Op.set 3 3,
       omp_hash_map.Op.set 4 4, omp_hash_map.Op.set 5 5]) 6 6 Nat.succ 9
      (by decide)).2.2.1).trans (by decide),
   ((C8_growth_check_after_handler (fun n => n) (omp_hash_map.run (fun n => n) (omp_hash_map.construct (K := Nat) (V := Nat))
      [omp_hash_map.Op.set 1 1, omp_hash_map.Op.set 2 2, omp_hash_map.Op.set 3 3,
       omp_hash_map.Op.set 4 4, omp_hash_map.Op.set 5 5]) 6 6 Nat.succ 9
      (by decide)).2.2.2).trans (by decide),
   ((C8_growth_check_after_handler (fun n => n) (omp_hash_map.run (fun n => n) (omp_hash_map.construct (K := Nat) (V := Nat))
      [omp_hash_map.Op.set 1 1, omp_hash_map.Op.set 2 2, omp_hash_map.Op.set 3 3,
       omp_hash_map.Op.set 4 4, omp_hash_map.Op.set 5 5, omp_hash_map.Op.set 6 6]) 7 7 Nat.succ 9
      (by decide)).2.1).trans (by decide)⟩

end ClaimTheorems2
